import Mathlib

/-!
Verification development for the pdf-to-xls-vision tabular pipeline.

The source modules embedded here (shallow embedding over lists of
characters) are:
  data_cleaning.py    (single-cell repair and the cross-cell cascade repair)
  quality_check.py    (quality heuristics engine)
  excel_writer.py     (roll-up range detection and formula emission)
  validation.py       (numeric reconciliation validator)
  converter.py        (orchestration tail and batch loop)

Cell values are modelled as Option (List Char): a string cell or a null
cell, following the data model of the design (a cell value is a string, or
absent/empty).  Whitespace is the ASCII whitespace set stripped by the
Python str.strip primitive.
-/

namespace PdfToXls

abbrev L := List Char
abbrev Cell := Option L

/-- ASCII whitespace, as stripped by the Python strip primitive. -/
def pyWs (c : Char) : Bool :=
  c = ' ' || c = '\t' || c = '\n' || c = '\r' || c = '\x0b' || c = '\x0c'

/-- Drop leading whitespace (Python lstrip). -/
def lstrip (l : L) : L := l.dropWhile pyWs

/-- Drop trailing whitespace (Python rstrip). -/
def rstrip (l : L) : L := (l.reverse.dropWhile pyWs).reverse

/-- Python str.strip: drop leading and trailing whitespace. -/
def pstrip (l : L) : L := rstrip (lstrip l)

/-- Character class of the regex [0-9,.-] used throughout data_cleaning.py. -/
def numClass (c : Char) : Bool := c.isDigit || c = ',' || c = '.' || c = '-'

/-- The cell text ends with an open parenthesis. -/
def trailingOpen (l : L) : Bool := decide (l.getLast? = some '(')

/-- Match of the anchored regex that recognises a number followed by a close
paren and a dangling open paren, returning the numeric part on success
(data_cleaning.py line 122 and line 152). -/
def numParenParen (l : L) : Option L :=
  match l.reverse with
  | c1 :: c2 :: rest =>
    if c1 = '(' ∧ c2 = ')' ∧ ¬rest.isEmpty ∧ rest.all numClass then some rest.reverse
    else none
  | _ => none

/-- The stripped cell ends with a dangling open paren (trigger of the first
cascade rewrite, data_cleaning.py line 113). -/
def danglingOpenCell : Cell → Bool
  | some s => trailingOpen (pstrip s)
  | none => false

/-- The stripped cell matches the number-close-open pattern (trigger of the
second cascade rewrite, data_cleaning.py line 152). -/
def numParenParenCell : Cell → Bool
  | some s => (numParenParen (pstrip s)).isSome
  | none => false

/-- The stripped text of a cell, the empty text for a null cell (the source
uses the empty string for a null current cell at line 155). -/
def cellStrip : Cell → L
  | some s => pstrip s
  | none => []

/-- New value of the current cell after donating its trailing open paren:
strip it, drop the paren, strip again, and store null if nothing is left
(data_cleaning.py lines 111-115 and 128). -/
def fire1Curr (s : L) : Cell :=
  if (pstrip ((pstrip s).dropLast)).isEmpty then none
  else some (pstrip ((pstrip s).dropLast))

/-- New value of the next cell when the current cell donated its trailing
open paren (data_cleaning.py lines 117-146). -/
def cascadeNext (next : Cell) : Cell :=
  match next with
  | some t =>
    match numParenParen (pstrip t) with
    | some num => some ('(' :: (num ++ [')', '(']))
    | none =>
      -- the close-paren branch and the default branch of the source both
      -- prepend the incoming open paren to the stripped next cell
      if (pstrip t).getLast? = some ')' ∧ ¬(pstrip t).head? = some '(' then
        some ('(' :: pstrip t)
      else some ('(' :: pstrip t)
  | none => some ['(']

/-- Second check of one loop iteration (data_cleaning.py lines 148-163):
move a stray close paren of the next cell to the current cell.  The local
variables of the source still hold the values read at the top of the
iteration, so this check observes the original cells. -/
def pairStep2 (curr next : Cell) : Cell × Cell × Bool :=
  match next with
  | some t =>
    match numParenParen (pstrip t) with
    | some num =>
      if trailingOpen (cellStrip curr) then (curr, next, false)
      else (some (cellStrip curr ++ [')']), some ('(' :: (num ++ [')', '('])), true)
    | none => (curr, next, false)
  | none => (curr, next, false)

/-- One iteration of the inner column loop of clean_dataframe_parentheses
(data_cleaning.py lines 102-163) acting on the pair of adjacent cells. -/
def pairStep (curr next : Cell) : Cell × Cell × Bool :=
  match curr with
  | some s =>
    if trailingOpen (pstrip s) then (fire1Curr s, cascadeNext next, true)
    else pairStep2 (some s) next
  | none => pairStep2 none next

/-- One full left-to-right pass over the adjacent pairs of a row, threading
the in-place updates, returning the new row and the changed flag. -/
def cascadeGo : Cell → List Cell → List Cell × Bool
  | c, [] => ([c], false)
  | c, n :: rest =>
    let p := pairStep c n
    let t := cascadeGo p.2.1 rest
    (p.1 :: t.1, p.2.2 || t.2)

/-- One sweep of the while loop body (data_cleaning.py lines 100-163). -/
def sweepRow : List Cell → List Cell × Bool
  | [] => ([], false)
  | c :: cs => cascadeGo c cs

/-- Number of open parens stored in a cell text. -/
def pcL (l : L) : Nat := l.count '('

/-- Number of open parens stored in a cell. -/
def pcC : Cell → Nat
  | some s => pcL s
  | none => 0

/-- The stripped cell starts with a numeric-class character.  Only such
cells can ever satisfy the number-close-open pattern. -/
def dleadC : Cell → Bool
  | some s => (match pstrip s with | c :: _ => numClass c | [] => false)
  | none => false

/-- Contribution of one cell to the first termination measure. -/
def ew (c : Cell) : Nat := if dleadC c then 1 else 0

/-- First component of the termination measure: how many cells still start
with a numeric-class character. -/
def eRow (r : List Cell) : Nat := (r.map ew).sum

/-- Second component of the termination measure: open parens weighted by
distance from the right edge of the row. -/
def mRow : List Cell → Nat
  | [] => 0
  | c :: cs => (cs.length + 1) * pcC c + mRow cs

/-- Strict lexicographic order on the two measure components. -/
def lexNM (a b : Nat × Nat) : Prop := a.1 < b.1 ∨ (a.1 = b.1 ∧ a.2 < b.2)

lemma count_dropWhile_of_neg {p : Char → Bool} {a : Char} (h : p a = false) (l : L) :
    (l.dropWhile p).count a = l.count a := by
  conv_rhs => rw [← List.takeWhile_append_dropWhile p l]
  rw [List.count_append]
  have : (l.takeWhile p).count a = 0 := by
    rw [List.count_eq_zero]
    intro hm
    exact absurd (List.mem_takeWhile_imp hm) (by simp [h])
  omega

lemma pcL_lstrip (l : L) : pcL (lstrip l) = pcL l :=
  count_dropWhile_of_neg (by decide) l

lemma pcL_rstrip (l : L) : pcL (rstrip l) = pcL l := by
  unfold rstrip pcL
  rw [List.count_reverse, count_dropWhile_of_neg (by decide), List.count_reverse]

lemma pcL_pstrip (l : L) : pcL (pstrip l) = pcL l := by
  unfold pstrip; rw [pcL_rstrip, pcL_lstrip]

lemma dropWhile_head_neg {p : Char → Bool} :
    ∀ {l : L} {c : Char} {r : L}, l.dropWhile p = c :: r → p c = false := by
  intro l
  induction l with
  | nil => intro c r h; simp at h
  | cons a t ih =>
    intro c r h
    by_cases hp : p a
    · exact ih (by simpa [List.dropWhile_cons, hp] using h)
    · rw [List.dropWhile_cons, if_neg (by simp [hp])] at h
      cases h
      simpa using hp

lemma dropWhile_dropWhile (p : Char → Bool) (l : L) :
    (l.dropWhile p).dropWhile p = l.dropWhile p := by
  cases h : l.dropWhile p with
  | nil => rfl
  | cons c r => rw [List.dropWhile_cons, if_neg (by simp [dropWhile_head_neg h])]

lemma rstrip_pref (l : L) : rstrip l <+: l := by
  obtain ⟨t, ht⟩ := List.dropWhile_suffix (l := l.reverse) pyWs
  refine ⟨t.reverse, ?_⟩
  have := congrArg List.reverse ht
  simpa [rstrip] using this

lemma rstrip_idem (l : L) : rstrip (rstrip l) = rstrip l := by
  unfold rstrip
  rw [List.reverse_reverse, dropWhile_dropWhile]

lemma lstrip_eq_self_of_head {l : L} {c : Char} (h : l.head? = some c)
    (hc : pyWs c = false) : lstrip l = l := by
  cases l with
  | nil => rfl
  | cons a t =>
    cases h
    simp [lstrip, List.dropWhile_cons, hc]

lemma rstrip_eq_self_of_getLast {l : L} {c : Char} (h : l.getLast? = some c)
    (hc : pyWs c = false) : rstrip l = l := by
  have hrev : l.reverse.head? = some c := by rw [List.head?_reverse]; exact h
  cases hl : l.reverse with
  | nil => simp [hl] at hrev
  | cons a t =>
    rw [hl] at hrev
    cases hrev
    have : l.reverse.dropWhile pyWs = l.reverse := by
      rw [hl, List.dropWhile_cons, if_neg (by simp [hc])]
    unfold rstrip
    rw [this, List.reverse_reverse]

lemma rstrip_cons_of_neg {c : Char} (hc : pyWs c = false) (t : L) :
    rstrip (c :: t) = c :: rstrip t := by
  unfold rstrip
  rw [List.reverse_cons, List.dropWhile_append]
  by_cases h : (t.reverse.dropWhile pyWs).isEmpty
  · rw [if_pos h, List.dropWhile_cons, if_neg (by simp [hc])]
    simp only [List.isEmpty_iff] at h
    simp [h]
  · rw [if_neg h]
    simp

lemma pstrip_head_neg {l : L} {c : Char} {r : L} (h : pstrip l = c :: r) :
    pyWs c = false := by
  obtain ⟨t, ht⟩ := rstrip_pref (lstrip l)
  have hh : lstrip l = c :: (r ++ t) := by
    rw [← ht]
    unfold pstrip at h
    rw [h, List.cons_append]
  exact dropWhile_head_neg (p := pyWs) (by simpa [lstrip] using hh)

lemma pstrip_idem (l : L) : pstrip (pstrip l) = pstrip l := by
  cases h : pstrip l with
  | nil => rfl
  | cons c r =>
    have hc := pstrip_head_neg h
    have h1 : lstrip (c :: r) = c :: r := lstrip_eq_self_of_head rfl hc
    show rstrip (lstrip (c :: r)) = c :: r
    rw [h1, ← h]
    show rstrip (rstrip (lstrip l)) = pstrip l
    rw [rstrip_idem]
    rfl

lemma pstrip_eq_nil_count {l : L} (h : pstrip l = []) : pcL l = 0 := by
  rw [← pcL_pstrip, h]; rfl

lemma head?_of_pref {l t : L} (h : l <+: t) (hne : l ≠ []) : t.head? = l.head? := by
  obtain ⟨r, rfl⟩ := h
  cases l with
  | nil => exact absurd rfl hne
  | cons a b => rfl

/-- An open paren prefixed to any text makes the cell not numeric-leading. -/
lemma dleadC_open_cons (x : L) : dleadC (some ('(' :: x)) = false := by
  have h1 : lstrip ('(' :: x) = '(' :: x := lstrip_eq_self_of_head rfl (by decide)
  have h2 : pstrip ('(' :: x) = '(' :: rstrip x := by
    unfold pstrip
    rw [h1, rstrip_cons_of_neg (by decide)]
  simp only [dleadC, h2]
  rfl

lemma danglingOpenCell_eq (c : Cell) :
    danglingOpenCell c = trailingOpen (cellStrip c) := by
  cases c <;> rfl

lemma trailingOpen_decomp {l : L} (h : trailingOpen l = true) :
    l = l.dropLast ++ ['('] := by
  have hl : l.getLast? = some '(' := by simpa [trailingOpen] using h
  have hne : l ≠ [] := by rintro rfl; simp at hl
  have hd := List.dropLast_append_getLast hne
  rw [List.getLast?_eq_getLast l hne] at hl
  have hgl : l.getLast hne = '(' := Option.some_inj.1 hl
  rw [← hgl]
  exact hd.symm

lemma numParenParen_eq {l num : L} (h : numParenParen l = some num) :
    l = num ++ [')', '('] ∧ num ≠ [] ∧ num.all numClass := by
  cases hr : l.reverse with
  | nil => simp [numParenParen, hr] at h
  | cons c1 t =>
    cases t with
    | nil => simp [numParenParen, hr] at h
    | cons c2 rest =>
      simp only [numParenParen, hr] at h
      split at h
      case isTrue hc =>
        obtain ⟨h1, h2, h3, h4⟩ := hc
        subst h1
        subst h2
        have hnum : num = rest.reverse := (Option.some_inj.1 h).symm
        subst hnum
        refine ⟨?_, by simpa using h3, by simpa using h4⟩
        have hrev := congrArg List.reverse hr
        rw [List.reverse_reverse] at hrev
        rw [hrev]
        simp
      case isFalse hc => exact absurd h (by simp)

lemma count_eq_zero_of_all {l : L} {a : Char} (hall : l.all numClass)
    (ha : numClass a = false) : l.count a = 0 := by
  rw [List.count_eq_zero]
  intro hm
  have := List.all_eq_true.1 hall a hm
  rw [ha] at this
  exact absurd this (by simp)

lemma pcL_append (l₁ l₂ : L) : pcL (l₁ ++ l₂) = pcL l₁ + pcL l₂ :=
  List.count_append '(' l₁ l₂

lemma pcL_eq_zero_of_all {l : L} (hall : l.all numClass) : pcL l = 0 :=
  count_eq_zero_of_all hall (by decide)

lemma pcL_cons_open (x : L) : pcL ('(' :: x) = pcL x + 1 := by
  simp [pcL, List.count_cons]

lemma pcL_close_open : pcL [')', '('] = 1 := by decide

/-- The rewritten next cell always gains exactly the incoming open paren. -/
lemma cascadeNext_pc (n : Cell) : pcC (cascadeNext n) = pcC n + 1 := by
  cases n with
  | none => rfl
  | some t =>
    simp only [cascadeNext]
    cases hp : numParenParen (pstrip t) with
    | some num =>
      obtain ⟨hdec, hne, hall⟩ := numParenParen_eq hp
      have hz : pcL num = 0 := pcL_eq_zero_of_all hall
      have hpt : pcL t = 1 := by
        rw [← pcL_pstrip, hdec, pcL_append, hz, pcL_close_open]
      show pcL ('(' :: (num ++ [')', '('])) = pcL t + 1
      rw [pcL_cons_open, pcL_append, hz, pcL_close_open, hpt]
    | none =>
      simp only [ite_self]
      show pcL ('(' :: pstrip t) = pcL t + 1
      rw [pcL_cons_open, pcL_pstrip]

/-- The rewritten next cell always starts with an open paren. -/
lemma cascadeNext_ew (n : Cell) : ew (cascadeNext n) = 0 := by
  have h : dleadC (cascadeNext n) = false := by
    cases n with
    | none => exact dleadC_open_cons []
    | some t =>
      simp only [cascadeNext]
      cases hp : numParenParen (pstrip t) with
      | some num => exact dleadC_open_cons _
      | none => simp only [ite_self]; exact dleadC_open_cons _
  simp [ew, h]

/-- A cell matching the number-close-open pattern is numeric-leading. -/
lemma dleadC_of_pattern {t num : L} (h : numParenParen (pstrip t) = some num) :
    dleadC (some t) = true := by
  obtain ⟨hdec, hne, hall⟩ := numParenParen_eq h
  cases hn : num with
  | nil => exact absurd hn hne
  | cons n0 rest =>
    have hhead : pstrip t = n0 :: (rest ++ [')', '(']) := by
      rw [hdec, hn]; simp
    have hclass : numClass n0 = true := by
      have := List.all_eq_true.1 hall n0 (by rw [hn]; exact List.mem_cons_self n0 rest)
      simpa using this
    simp [dleadC, hhead, hclass]

/-- Appending the stray close paren preserves the numeric-leading status. -/
lemma fire2_curr_ew (c : Cell) : ew (some (cellStrip c ++ [')'])) = ew c := by
  cases c with
  | none =>
    show ew (some [')']) = 0
    have hx : pstrip [')'] = [')'] := by decide
    simp [ew, dleadC, hx]
    decide
  | some s =>
    cases hs : pstrip s with
    | nil =>
      have hx : pstrip [')'] = [')'] := by decide
      simp [cellStrip, hs, ew, dleadC, hx]
      decide
    | cons c0 rest =>
      have hc0 : pyWs c0 = false := pstrip_head_neg hs
      have hlast : (c0 :: (rest ++ [')'])).getLast? = some ')' := by
        have he : c0 :: (rest ++ [')']) = (c0 :: rest) ++ [')'] := rfl
        rw [he, List.getLast?_append_of_ne_nil (c0 :: rest) (by simp)]
        rfl
      have hps : pstrip (c0 :: (rest ++ [')'])) = c0 :: (rest ++ [')']) := by
        rw [pstrip, @lstrip_eq_self_of_head (c0 :: (rest ++ [')'])) c0 rfl hc0,
          rstrip_eq_self_of_getLast hlast (by decide)]
      have hgoal : cellStrip (some s) ++ [')'] = c0 :: (rest ++ [')']) := by
        simp [cellStrip, hs]
      rw [hgoal]
      simp [ew, dleadC, hps, hs]

lemma fire2_curr_pc (c : Cell) : pcC (some (cellStrip c ++ [')'])) = pcC c := by
  cases c with
  | none => rfl
  | some s =>
    show pcL (pstrip s ++ [')']) = pcL s
    rw [pcL_append, pcL_pstrip]
    rfl

lemma fire1Curr_pc {s : L} (h : trailingOpen (pstrip s) = true) :
    pcC (fire1Curr s) + 1 = pcC (some s) := by
  have hdec := trailingOpen_decomp h
  have hcount : pcL (pstrip s) = pcL ((pstrip s).dropLast) + 1 := by
    conv_lhs => rw [hdec]
    rw [pcL_append]
    rfl
  have hfc : pcC (fire1Curr s) = pcL ((pstrip s).dropLast) := by
    unfold fire1Curr
    by_cases he : (pstrip ((pstrip s).dropLast)).isEmpty
    · rw [if_pos he]
      show 0 = pcL ((pstrip s).dropLast)
      rw [← pcL_pstrip ((pstrip s).dropLast), List.isEmpty_iff.1 he]
      rfl
    · rw [if_neg he]
      show pcL (pstrip ((pstrip s).dropLast)) = pcL ((pstrip s).dropLast)
      exact pcL_pstrip _
  rw [hfc]
  have : pcC (some s) = pcL (pstrip s) := (pcL_pstrip s).symm
  rw [this, hcount]

lemma fire1Curr_ew {s : L} (h : trailingOpen (pstrip s) = true) :
    ew (fire1Curr s) = ew (some s) := by
  cases hs : pstrip s with
  | nil => rw [hs] at h; exact absurd h (by decide)
  | cons c0 rest =>
    have hc0 := pstrip_head_neg hs
    cases rest with
    | nil =>
      have hc : c0 = '(' := by
        rw [hs] at h
        simpa [trailingOpen] using h
      have hfc : fire1Curr s = none := by
        unfold fire1Curr
        rw [hs]
        rfl
      rw [hfc]
      simp [ew, dleadC, hs, hc]
      decide
    | cons c1 rest2 =>
      have hdl : (pstrip s).dropLast = c0 :: (c1 :: rest2).dropLast := by
        rw [hs]
        rfl
      have hps2 : pstrip ((pstrip s).dropLast) = c0 :: rstrip ((c1 :: rest2).dropLast) := by
        rw [hdl, pstrip, @lstrip_eq_self_of_head (c0 :: (c1 :: rest2).dropLast) c0 rfl hc0,
          rstrip_cons_of_neg hc0]
      have hfc : fire1Curr s = some (pstrip ((pstrip s).dropLast)) := by
        unfold fire1Curr
        rw [if_neg (by rw [hps2]; simp)]
      rw [hfc, hps2]
      have hpY : pstrip (c0 :: rstrip ((c1 :: rest2).dropLast)) =
          c0 :: rstrip ((c1 :: rest2).dropLast) := by
        rw [pstrip, @lstrip_eq_self_of_head (c0 :: rstrip ((c1 :: rest2).dropLast)) c0 rfl hc0,
          rstrip_cons_of_neg hc0, rstrip_idem]
      simp only [ew, dleadC, hpY, hs]

lemma pairStep_dangling {s : L} (h : trailingOpen (pstrip s) = true) (n : Cell) :
    pairStep (some s) n = (fire1Curr s, cascadeNext n, true) := by
  simp [pairStep, h]

lemma pairStep_not_dangling {c : Cell} (h : danglingOpenCell c = false) (n : Cell) :
    pairStep c n = pairStep2 c n := by
  cases c with
  | none => rfl
  | some s =>
    have hs : trailingOpen (pstrip s) = false := by simpa [danglingOpenCell] using h
    simp [pairStep, hs]

lemma pairStep2_no_pattern {n : Cell} (h : numParenParenCell n = false) (c : Cell) :
    pairStep2 c n = (c, n, false) := by
  cases n with
  | none => rfl
  | some t =>
    have hnone : numParenParen (pstrip t) = none := by
      have := h
      simp only [numParenParenCell] at this
      exact Option.not_isSome_iff_eq_none.1 (by simp [this])
    simp [pairStep2, hnone]

lemma pairStep2_pattern {t num : L} (hp : numParenParen (pstrip t) = some num) {c : Cell}
    (hnd : danglingOpenCell c = false) :
    pairStep2 c (some t) =
      (some (cellStrip c ++ [')']), some ('(' :: (num ++ [')', '('])), true) := by
  rw [danglingOpenCell_eq] at hnd
  simp [pairStep2, hp, hnd]

lemma pairStep_flag (c n : Cell) :
    (pairStep c n).2.2 = (danglingOpenCell c || numParenParenCell n) := by
  by_cases hd : danglingOpenCell c = true
  · cases c with
    | none => exact absurd hd (by decide)
    | some s =>
      rw [pairStep_dangling (by simpa [danglingOpenCell] using hd) n, hd]
      rfl
  · have hd' : danglingOpenCell c = false := by simpa using hd
    rw [pairStep_not_dangling hd' n, hd']
    by_cases hp : numParenParenCell n = true
    · cases n with
      | none => exact absurd hp (by decide)
      | some t =>
        obtain ⟨num, hnum⟩ : ∃ num, numParenParen (pstrip t) = some num := by
          have := hp
          simp only [numParenParenCell] at this
          exact Option.isSome_iff_exists.1 this
        rw [pairStep2_pattern hnum hd', hp]
        rfl
    · have hp' : numParenParenCell n = false := by simpa using hp
      rw [pairStep2_no_pattern hp' c, hp']
      rfl

lemma pairStep_false_id {c n : Cell} (h : (pairStep c n).2.2 = false) :
    pairStep c n = (c, n, false) := by
  rw [pairStep_flag] at h
  obtain ⟨h1, h2⟩ := Bool.or_eq_false_iff.1 h
  rw [pairStep_not_dangling h1 n, pairStep2_no_pattern h2 c]

lemma ew_le_one (c : Cell) : ew c ≤ 1 := by
  unfold ew
  by_cases h : dleadC c = true <;> simp [h]

lemma pairStep_decrease {c n : Cell} (h : (pairStep c n).2.2 = true) :
    (ew (pairStep c n).1 + ew (pairStep c n).2.1 < ew c + ew n) ∨
      (ew (pairStep c n).1 = ew c ∧ ew (pairStep c n).2.1 = ew n ∧
        pcC (pairStep c n).1 + 1 = pcC c ∧ pcC (pairStep c n).2.1 = pcC n + 1) := by
  by_cases hd : danglingOpenCell c = true
  · cases c with
    | none => exact absurd hd (by decide)
    | some s =>
      have hs : trailingOpen (pstrip s) = true := by simpa [danglingOpenCell] using hd
      rw [pairStep_dangling hs n]
      by_cases hn : ew n = 0
      · right
        exact ⟨fire1Curr_ew hs, by rw [cascadeNext_ew, hn], fire1Curr_pc hs, cascadeNext_pc n⟩
      · left
        have h1 : ew n = 1 := by have := ew_le_one n; omega
        rw [fire1Curr_ew hs, cascadeNext_ew, h1]
        omega
  · have hd' : danglingOpenCell c = false := by simpa using hd
    rw [pairStep_not_dangling hd' n] at h ⊢
    cases n with
    | none => rw [pairStep2_no_pattern (by decide) c] at h; simp at h
    | some t =>
      cases hp : numParenParen (pstrip t) with
      | none =>
        rw [pairStep2_no_pattern (by simp [numParenParenCell, hp]) c] at h
        simp at h
      | some num =>
        rw [pairStep2_pattern hp hd']
        left
        have hewn : ew (some t) = 1 := by simp [ew, dleadC_of_pattern hp]
        have hnext : some ('(' :: (num ++ [')', '('])) = cascadeNext (some t) := by
          simp [cascadeNext, hp]
        rw [fire2_curr_ew, hewn]
        show ew c + ew (some ('(' :: (num ++ [')', '(']))) < ew c + 1
        rw [hnext, cascadeNext_ew]
        omega

lemma eRow_cons (c : Cell) (l : List Cell) : eRow (c :: l) = ew c + eRow l := by
  simp [eRow]

lemma cascadeGo_length (c : Cell) (rest : List Cell) :
    (cascadeGo c rest).1.length = rest.length + 1 := by
  induction rest generalizing c with
  | nil => rfl
  | cons n rs ih =>
    show ((pairStep c n).1 :: (cascadeGo (pairStep c n).2.1 rs).1).length = rs.length + 1 + 1
    rw [List.length_cons, ih]

lemma cascadeGo_false (c : Cell) (rest : List Cell)
    (h : (cascadeGo c rest).2 = false) : (cascadeGo c rest).1 = c :: rest := by
  induction rest generalizing c with
  | nil => rfl
  | cons n rs ih =>
    have hflag : ((pairStep c n).2.2 || (cascadeGo (pairStep c n).2.1 rs).2) = false := h
    obtain ⟨h1, h2⟩ := Bool.or_eq_false_iff.1 hflag
    have hid := pairStep_false_id h1
    show (pairStep c n).1 :: (cascadeGo (pairStep c n).2.1 rs).1 = c :: n :: rs
    rw [hid] at h2 ⊢
    show c :: (cascadeGo n rs).1 = c :: n :: rs
    rw [ih n h2]

lemma lexNM_add {a b c d : Nat} (k m : Nat) (h : lexNM (a, b) (c, d)) :
    lexNM (k + a, m + b) (k + c, m + d) := by
  rcases h with h | ⟨h1, h2⟩
  · left; simpa using h
  · right; constructor <;> simp_all

lemma lexNM_trans {a b c : Nat × Nat} (h1 : lexNM a b) (h2 : lexNM b c) : lexNM a c := by
  rcases h1 with h1 | ⟨h1, h1m⟩ <;> rcases h2 with h2 | ⟨h2, h2m⟩
  · left; omega
  · left; omega
  · left; omega
  · right; omega

/-- The key pair-level fact lifted to the whole measured row: every change
of a sweep strictly decreases the lexicographic measure. -/
lemma cascadeGo_decrease (rest : List Cell) :
    ∀ c : Cell, (cascadeGo c rest).2 = true →
      lexNM (eRow (cascadeGo c rest).1, mRow (cascadeGo c rest).1)
        (eRow (c :: rest), mRow (c :: rest)) := by
  induction rest with
  | nil => intro c h; exact absurd h (by simp [cascadeGo])
  | cons n rs ih =>
    intro c h
    have hout : (cascadeGo c (n :: rs)).1 =
        (pairStep c n).1 :: (cascadeGo (pairStep c n).2.1 rs).1 := rfl
    have hflag : (cascadeGo c (n :: rs)).2 =
        ((pairStep c n).2.2 || (cascadeGo (pairStep c n).2.1 rs).2) := rfl
    rw [hout]
    set p := pairStep c n with hp
    set t := cascadeGo p.2.1 rs with ht
    have hlen : t.1.length = rs.length + 1 := cascadeGo_length p.2.1 rs
    by_cases hps : p.2.2 = true
    · -- the pair fired
    -- measure of the intermediate state with the fired pair and untouched tail
      have hpair : lexNM (eRow (p.1 :: p.2.1 :: rs), mRow (p.1 :: p.2.1 :: rs))
          (eRow (c :: n :: rs), mRow (c :: n :: rs)) := by
        have hdec := pairStep_decrease hps
        rw [← hp] at hdec
        rcases hdec with hlt | ⟨he1, he2, hc1, hc2⟩
        · left
          rw [eRow_cons, eRow_cons, eRow_cons, eRow_cons]
          omega
        · right
          constructor
          · rw [eRow_cons, eRow_cons, eRow_cons, eRow_cons, he1, he2]
          · show (rs.length + 1 + 1) * pcC p.1 + ((rs.length + 1) * pcC p.2.1 + mRow rs) <
              (rs.length + 1 + 1) * pcC c + ((rs.length + 1) * pcC n + mRow rs)
            set a := pcC p.1
            set b := pcC n
            rw [hc2, ← hc1]
            ring_nf
            omega
      by_cases hts : t.2 = true
      · refine lexNM_trans ?_ hpair
        have hrec := ih p.2.1 hts
        have hmeq : mRow (p.1 :: t.1) = (rs.length + 1 + 1) * pcC p.1 + mRow t.1 := by
          show (t.1.length + 1) * pcC p.1 + mRow t.1 = (rs.length + 1 + 1) * pcC p.1 + mRow t.1
          rw [hlen]
        rw [eRow_cons, hmeq]
        have h2 : mRow (p.1 :: p.2.1 :: rs) =
            (rs.length + 1 + 1) * pcC p.1 + mRow (p.2.1 :: rs) := rfl
        rw [h2, eRow_cons]
        exact lexNM_add _ _ hrec
      · have hts' : t.2 = false := by simpa using hts
        rw [cascadeGo_false p.2.1 rs hts']
        exact hpair
    · have hps' : p.2.2 = false := by simpa using hps
      have hid := pairStep_false_id hps'
      have hp1 : p.1 = c := by rw [hp, hid]
      have hp2 : p.2.1 = n := by rw [hp, hid]
      have hts : t.2 = true := by
        have := h
        rw [hflag] at this
        rcases Bool.or_eq_true_iff.1 this with hx | hx
        · exact absurd hx (by simp [hps'])
        · exact hx
      have hrec := ih p.2.1 hts
      have hmeq : mRow (p.1 :: t.1) = (rs.length + 1 + 1) * pcC p.1 + mRow t.1 := by
        show (t.1.length + 1) * pcC p.1 + mRow t.1 = (rs.length + 1 + 1) * pcC p.1 + mRow t.1
        rw [hlen]
      rw [← hp1, ← hp2, eRow_cons, hmeq]
      have h2 : mRow (p.1 :: p.2.1 :: rs) =
          (rs.length + 1 + 1) * pcC p.1 + mRow (p.2.1 :: rs) := rfl
      rw [h2, eRow_cons]
      exact lexNM_add _ _ hrec

lemma sweepRow_false_id {r : List Cell} (h : (sweepRow r).2 = false) :
    (sweepRow r).1 = r := by
  cases r with
  | nil => rfl
  | cons c cs => exact cascadeGo_false c cs h

lemma sweepRow_decrease {r : List Cell} (h : (sweepRow r).2 = true) :
    lexNM (eRow (sweepRow r).1, mRow (sweepRow r).1) (eRow r, mRow r) := by
  cases r with
  | nil => exact absurd h (by simp [sweepRow])
  | cons c cs => exact cascadeGo_decrease cs c h

/-- The while loop of clean_dataframe_parentheses (data_cleaning.py lines
98-163): sweep the row until a sweep reports no change.  Total by the
strictly decreasing lexicographic measure. -/
def cascadeRow (r : List Cell) : List Cell :=
  if h : (sweepRow r).2 = true then cascadeRow (sweepRow r).1 else (sweepRow r).1
termination_by (eRow r, mRow r)
decreasing_by
  rcases sweepRow_decrease h with h1 | ⟨h1, h2⟩
  · exact Prod.Lex.left _ _ h1
  · have h1e : eRow (sweepRow r).1 = eRow r := h1
    have h2m : mRow (sweepRow r).1 < mRow r := h2
    rw [h1e]
    exact Prod.Lex.right _ h2m

/-- The cascade loop always exits having reached a genuine fixed point: one
more sweep of its output changes nothing. -/
lemma cascadeRow_fix (r : List Cell) : sweepRow (cascadeRow r) = (cascadeRow r, false) := by
  induction r using cascadeRow.induct with
  | case1 r h ih =>
    rw [cascadeRow, dif_pos h]
    exact ih
  | case2 r h =>
    have h' : (sweepRow r).2 = false := by simpa using h
    rw [cascadeRow, dif_neg h]
    rw [sweepRow_false_id h']
    have : sweepRow r = ((sweepRow r).1, (sweepRow r).2) := rfl
    rw [sweepRow_false_id h'] at this
    rw [h'] at this
    exact this

/-- Final cleanup of clean_dataframe_parentheses (data_cleaning.py lines
165-171): on every string cell, strip it and trim a trailing
percent-whitespace-open-paren artifact back to the percent sign. -/
def cleanupCell : Cell → Cell
  | some s =>
    if trailingOpen (pstrip s) = true ∧ (rstrip (pstrip s).dropLast).getLast? = some '%' then
      some (rstrip (pstrip s).dropLast)
    else some (pstrip s)
  | none => none

/-- clean_dataframe_parentheses on one row: the cascade loop followed by the
percentage cleanup of its cells. -/
def cleanRowB (r : List Cell) : List Cell := (cascadeRow r).map cleanupCell

/-- clean_dataframe_parentheses (data_cleaning.py lines 72-173): the cascade
loop runs per row, then the cleanup pass visits every cell. -/
def clean_dataframe_parentheses (t : List (List Cell)) : List (List Cell) :=
  t.map cleanRowB

lemma cascadeGo_false_iff (c n : Cell) (rs : List Cell) :
    (cascadeGo c (n :: rs)).2 = false ↔
      (pairStep c n).2.2 = false ∧ (cascadeGo n rs).2 = false := by
  constructor
  · intro h
    have hflag : ((pairStep c n).2.2 || (cascadeGo (pairStep c n).2.1 rs).2) = false := h
    obtain ⟨h1, h2⟩ := Bool.or_eq_false_iff.1 hflag
    have hid := pairStep_false_id h1
    refine ⟨h1, ?_⟩
    rw [hid] at h2
    exact h2
  · rintro ⟨h1, h2⟩
    show ((pairStep c n).2.2 || (cascadeGo (pairStep c n).2.1 rs).2) = false
    rw [pairStep_false_id h1]
    show (false || (cascadeGo n rs).2) = false
    rw [h2]
    rfl

lemma cascadeGo_false_conds (rs : List Cell) :
    ∀ c : Cell, (cascadeGo c rs).2 = false → ∀ j, j < rs.length →
      danglingOpenCell ((c :: rs).getD j none) = false ∧
      numParenParenCell (rs.getD j none) = false := by
  induction rs with
  | nil => intro c h j hj; simp at hj
  | cons n rs2 ih =>
    intro c h j hj
    obtain ⟨h1, h2⟩ := (cascadeGo_false_iff c n rs2).1 h
    rw [pairStep_flag] at h1
    have hcond := Bool.or_eq_false_iff.1 h1
    cases j with
    | zero => simpa using hcond
    | succ j2 =>
      have hj2 : j2 < rs2.length := by simpa using hj
      have := ih n h2 j2 hj2
      simpa using this

lemma sweepRow_false_conds {s : List Cell} (h : (sweepRow s).2 = false) :
    ∀ j, j + 1 < s.length →
      danglingOpenCell (s.getD j none) = false ∧
      numParenParenCell (s.getD (j + 1) none) = false := by
  cases s with
  | nil => intro j hj; simp at hj
  | cons c cs =>
    intro j hj
    have hj' : j < cs.length := by simpa using hj
    have := cascadeGo_false_conds cs c h j hj'
    exact ⟨this.1, by simpa using this.2⟩

/-- A cell matching the number-close-open pattern also ends with a dangling
open paren. -/
lemma dangling_of_pattern {c : Cell} (h : numParenParenCell c = true) :
    danglingOpenCell c = true := by
  cases c with
  | none => simp [numParenParenCell] at h
  | some s =>
    obtain ⟨num, hnum⟩ : ∃ num, numParenParen (pstrip s) = some num := by
      simp only [numParenParenCell] at h
      exact Option.isSome_iff_exists.1 h
    obtain ⟨hdec, hne, hall⟩ := numParenParen_eq hnum
    have hlast : (pstrip s).getLast? = some '(' := by
      rw [hdec, List.getLast?_append_of_ne_nil num (by simp)]
      rfl
    simp [danglingOpenCell, trailingOpen, hlast]

/-- At a fixed point of the sweep, every cell left of the final column
neither ends with a dangling open paren nor matches the
number-close-open pattern. -/
lemma sweepRow_false_conds_all {s : List Cell} (h : (sweepRow s).2 = false) :
    ∀ j, j + 1 < s.length →
      danglingOpenCell (s.getD j none) = false ∧
      numParenParenCell (s.getD j none) = false := by
  intro j hj
  refine ⟨(sweepRow_false_conds h j hj).1, ?_⟩
  cases j with
  | zero =>
    by_contra hp
    have hp' : numParenParenCell (s.getD 0 none) = true := by simpa using hp
    have hd := dangling_of_pattern hp'
    rw [(sweepRow_false_conds h 0 hj).1] at hd
    exact absurd hd (by simp)
  | succ j2 =>
    have hj2 : j2 + 1 < s.length := by omega
    exact (sweepRow_false_conds h j2 hj2).2

lemma cleanup_dangling {c : Cell} (h : danglingOpenCell c = false) :
    danglingOpenCell (cleanupCell c) = false := by
  cases c with
  | none => rfl
  | some s =>
    have hto : trailingOpen (pstrip s) = false := by simpa [danglingOpenCell] using h
    simp only [cleanupCell]
    rw [if_neg (by simp [hto])]
    simp [danglingOpenCell, pstrip_idem, hto]

lemma pstrip_rstrip_dropLast (s : L) (hyne : rstrip (pstrip s).dropLast ≠ []) :
    pstrip (rstrip (pstrip s).dropLast) = rstrip (pstrip s).dropLast := by
  have hpre : rstrip (pstrip s).dropLast <+: pstrip s :=
    (rstrip_pref ((pstrip s).dropLast)).trans ( List.dropLast_prefix (pstrip s))
  cases hy : rstrip (pstrip s).dropLast with
  | nil => exact absurd hy hyne
  | cons c0 y2 =>
    rw [hy] at hpre
    have hhead := head?_of_pref hpre (by simp)
    cases hps : pstrip s with
    | nil =>
      rw [hps] at hhead
      simp at hhead
    | cons d r =>
      have hc0 : c0 = d := by
        rw [hps] at hhead
        simpa using hhead.symm
      have hdw : pyWs d = false := pstrip_head_neg hps
      subst hc0
      rw [← hy]
      show rstrip (lstrip (rstrip (pstrip s).dropLast)) = rstrip (pstrip s).dropLast
      rw [@lstrip_eq_self_of_head (rstrip (pstrip s).dropLast) c0 (by rw [hy]; rfl) hdw,
        rstrip_idem]

lemma cleanup_pattern {c : Cell} (h : numParenParenCell c = false) :
    numParenParenCell (cleanupCell c) = false := by
  cases c with
  | none => rfl
  | some s =>
    by_cases hc : trailingOpen (pstrip s) = true ∧
        (rstrip (pstrip s).dropLast).getLast? = some '%'
    · simp only [cleanupCell]
      rw [if_pos hc]
      have hyne : rstrip (pstrip s).dropLast ≠ [] := by
        intro h0
        rw [h0] at hc
        simp at hc
      have hys := pstrip_rstrip_dropLast s hyne
      show (numParenParen (pstrip (rstrip (pstrip s).dropLast))).isSome = false
      rw [hys]
      cases hyr : (rstrip (pstrip s).dropLast).reverse with
      | nil => simp [numParenParen, hyr]
      | cons a t =>
        have hha : a = '%' := by
          have hrev := List.head?_reverse (rstrip (pstrip s).dropLast)
          rw [hyr, hc.2] at hrev
          simpa using hrev
        cases t with
        | nil => simp [numParenParen, hyr]
        | cons b t2 =>
          simp only [numParenParen, hyr]
          rw [if_neg (by rintro ⟨h1, h2⟩; rw [hha] at h1; exact absurd h1 (by decide))]
          rfl
    · simp only [cleanupCell]
      rw [if_neg hc]
      show (numParenParen (pstrip (pstrip s))).isSome = false
      rw [pstrip_idem]
      simpa [numParenParenCell] using h

lemma cleanupCell_idem (c : Cell) : cleanupCell (cleanupCell c) = cleanupCell c := by
  cases c with
  | none => rfl
  | some s =>
    by_cases hc : trailingOpen (pstrip s) = true ∧
        (rstrip (pstrip s).dropLast).getLast? = some '%'
    · simp only [cleanupCell]
      rw [if_pos hc]
      have hyne : rstrip (pstrip s).dropLast ≠ [] := by
        intro h0
        rw [h0] at hc
        simp at hc
      have hys := pstrip_rstrip_dropLast s hyne
      show cleanupCell (some (rstrip (pstrip s).dropLast)) = some (rstrip (pstrip s).dropLast)
      simp only [cleanupCell]
      rw [if_neg (by
        rintro ⟨h1, h2⟩
        rw [hys] at h1
        have := hc.2
        simp only [trailingOpen] at h1
        rw [this] at h1
        exact absurd (of_decide_eq_true h1) (by simp))]
      rw [hys]
    · simp only [cleanupCell]
      rw [if_neg hc]
      show cleanupCell (some (pstrip s)) = some (pstrip s)
      simp only [cleanupCell]
      rw [if_neg (by rw [pstrip_idem]; exact hc), pstrip_idem]

lemma cascadeGo_map_cleanup (rs : List Cell) :
    ∀ c, (cascadeGo c rs).2 = false →
      (cascadeGo (cleanupCell c) (rs.map cleanupCell)).2 = false := by
  induction rs with
  | nil => intro c h; rfl
  | cons n rs2 ih =>
    intro c h
    obtain ⟨h1, h2⟩ := (cascadeGo_false_iff c n rs2).1 h
    rw [pairStep_flag] at h1
    obtain ⟨hd, hp⟩ := Bool.or_eq_false_iff.1 h1
    simp only [List.map_cons]
    refine (cascadeGo_false_iff _ _ _).2 ⟨?_, ih n h2⟩
    rw [pairStep_flag, cleanup_dangling hd, cleanup_pattern hp]
    rfl

lemma sweepRow_map_cleanup {s : List Cell} (h : (sweepRow s).2 = false) :
    (sweepRow (s.map cleanupCell)).2 = false := by
  cases s with
  | nil => rfl
  | cons c cs =>
    simp only [List.map_cons]
    exact cascadeGo_map_cleanup cs c h

lemma cascadeRow_of_false {r : List Cell} (h : (sweepRow r).2 = false) :
    cascadeRow r = r := by
  rw [cascadeRow, dif_neg (by simp [h]), sweepRow_false_id h]

/-- Running the cascade loop and the cleanup a second time changes nothing:
the loop exits at a fixed point, the cleanup preserves the absence of both
cascade triggers, and the cleanup is idempotent cell by cell. -/
lemma cleanRowB_idem (r : List Cell) : cleanRowB (cleanRowB r) = cleanRowB r := by
  unfold cleanRowB
  have hfix : (sweepRow (cascadeRow r)).2 = false := by rw [cascadeRow_fix]
  have h1 : cascadeRow ((cascadeRow r).map cleanupCell) = (cascadeRow r).map cleanupCell :=
    cascadeRow_of_false (sweepRow_map_cleanup hfix)
  rw [h1, List.map_map]
  exact List.map_congr_left fun c hc => cleanupCell_idem c

lemma getD_map_cleanup (l : List Cell) (j : Nat) :
    (l.map cleanupCell).getD j none = cleanupCell (l.getD j none) := by
  simp only [List.getD_eq_getElem?_getD, List.getElem?_map]
  cases l[j]? <;> rfl

/-- Conditions of the cascade fixed point survive the cleanup pass: on the
full output of clean_dataframe_parentheses, every cell left of the final
column has neither cascade trigger. -/
lemma cleanRowB_conds (r : List Cell) :
    ∀ j, j + 1 < (cleanRowB r).length →
      danglingOpenCell ((cleanRowB r).getD j none) = false ∧
      numParenParenCell ((cleanRowB r).getD j none) = false := by
  intro j hj
  have hfix : (sweepRow (cascadeRow r)).2 = false := by rw [cascadeRow_fix]
  have hlen : (cleanRowB r).length = (cascadeRow r).length := by simp [cleanRowB]
  have hj2 : j + 1 < (cascadeRow r).length := by rw [← hlen]; exact hj
  have hc := sweepRow_false_conds_all hfix j hj2
  unfold cleanRowB
  rw [getD_map_cleanup]
  exact ⟨cleanup_dangling hc.1, cleanup_pattern hc.2⟩

/-!  Pass A: single-cell parenthesis normalization (_fix_cell_parens). -/

/-- Global substitution of the regex open-paren-whitespace by the open paren
(data_cleaning.py line 28): delete every whitespace run that immediately
follows an open paren.  The flag records whether the scan sits right after
an open paren and is still discarding whitespace. -/
def subParenWsAux : Bool → L → L
  | _, [] => []
  | skip, c :: rest =>
    if skip && pyWs c then subParenWsAux true rest
    else if c = '(' then '(' :: subParenWsAux true rest
    else c :: subParenWsAux false rest

def subParenWs (l : L) : L := subParenWsAux false l

/-- Global substitution of the regex whitespace-close-paren by the close
paren (data_cleaning.py line 31): delete every whitespace run that
immediately precedes a close paren.  The accumulator holds the pending
whitespace run, reversed. -/
def subWsParenAux : L → L → L
  | pend, [] => pend.reverse
  | pend, c :: rest =>
    if pyWs c then subWsParenAux (c :: pend) rest
    else if c = ')' then ')' :: subWsParenAux [] rest
    else pend.reverse ++ (c :: subWsParenAux [] rest)

def subWsParen (l : L) : L := subWsParenAux [] l

/-- Collapse of every run of open parens to a single open paren
(data_cleaning.py line 34).  The flag records whether the scan sits inside
a run whose first paren was already emitted. -/
def collapseOpensAux : Bool → L → L
  | _, [] => []
  | skip, c :: rest =>
    if skip && (c = '(') then collapseOpensAux true rest
    else if c = '(' then '(' :: collapseOpensAux true rest
    else c :: collapseOpensAux false rest

def collapseOpens (l : L) : L := collapseOpensAux false l

/-- Full anchored match of a nonempty numeric-class run followed by a close
paren (data_cleaning.py line 45). -/
def numThenClose (l : L) : Bool :=
  match l.reverse with
  | c1 :: rest =>
    if c1 = ')' ∧ ¬rest.isEmpty ∧ rest.all numClass then true else false
  | _ => false

/-- _fix_cell_parens on a string (data_cleaning.py lines 7-48): strip, the
two whitespace substitutions, the open-paren collapse, then the two
structural repairs.  The missing-close-paren search succeeds exactly when
the final character lies in the numeric class, and the orphaned-close-paren
match requires the whole cell to be a numeric run followed by the paren. -/
def fix_cell_parens (s : L) : L :=
  let v3 := collapseOpens (subWsParen (subParenWs (pstrip s)))
  let v4 :=
    if v3.head? = some '(' ∧ ¬v3.getLast? = some ')' ∧
        (match v3.getLast? with | some c => numClass c | none => false) = true then
      v3 ++ [')']
    else v3
  if v4.getLast? = some ')' ∧ ¬v4.head? = some '(' ∧ numThenClose v4 = true then
    '(' :: v4
  else v4

/-- A Python cell value as seen by the repair passes: a string, a numeric
value, or a null cell. -/
inductive PyVal where
  | vstr (s : L)
  | vnum (n : Int)
  | vnone
deriving DecidableEq

/-- _fix_cell_parens including its isinstance guard (data_cleaning.py lines
22-23): every non-string value is returned as is. -/
def pyFixCellParens : PyVal → PyVal
  | .vstr s => .vstr (fix_cell_parens s)
  | v => v

/-- The apply lambda of clean_malformed_parentheses (data_cleaning.py line
67): null cells are skipped by the notna guard, other values go through
_fix_cell_parens. -/
def cleanMalformedCellPy : PyVal → PyVal
  | .vnone => .vnone
  | v => pyFixCellParens v

/-- Pass A on a string-or-null cell. -/
def fixCellOpt : Cell → Cell
  | some s => some (fix_cell_parens s)
  | none => none

/-- clean_malformed_parentheses (data_cleaning.py lines 51-69) on a table of
string-or-null cells. -/
def clean_malformed_parentheses (t : List (List Cell)) : List (List Cell) :=
  t.map fun r => r.map fixCellOpt

/-- The full repair in pipeline order (table_extraction.py lines 170-182):
the cross-cell cascade pass runs first, the single-cell normalization pass
second. -/
def repairTable (t : List (List Cell)) : List (List Cell) :=
  clean_malformed_parentheses (clean_dataframe_parentheses t)

/-!  Quality Heuristics Engine (quality_check.py). -/

/-- A table as seen by the quality checker: a header naming the columns and
the data rows. -/
structure QTable where
  header : List String
  rows : List (List Cell)
deriving DecidableEq

def numRows (t : QTable) : Nat := t.rows.length

def numCols (t : QTable) : Nat := t.header.length

/-- One detected quality issue, carrying the counts the source interpolates
into its descriptive string. -/
inductive QualityIssue where
  | singleColumn (rows : Nat)
  | rowExplosionHigh (rows : Nat)
  | rowExplosionManyCols (rows cols : Nat)
  | inconsistentColumns (inconsistent total : Nat)
  | emptyCells (empty total : Nat)
  | duplicateRows (dup total : Nat)
  | garbledText (garbled checked : Nat)
deriving DecidableEq

/-- Count of non-null cells of a row across the column range
(df.notna().sum(axis=1), quality_check.py line 67). -/
def notnaCountRow (ncols : Nat) (r : List Cell) : Nat :=
  (List.range ncols).countP fun j => (r.getD j none).isSome

/-- Count of null cells of a row across the column range. -/
def isnaCountRow (ncols : Nat) (r : List Cell) : Nat :=
  (List.range ncols).countP fun j => (r.getD j none).isNone

/-- The distinct values of a list in first-occurrence order, the iteration
order of the keys of a Python dictionary. -/
def dedupFirst {α : Type} [DecidableEq α] (l : List α) : List α :=
  l.foldl (fun acc a => if a ∈ acc then acc else acc ++ [a]) []

/-- The statistical mode as pandas reports it in position zero: the smallest
value of maximal multiplicity (quality_check.py line 69). -/
def modeOf (l : List Nat) : Nat :=
  let maxF := (l.map fun x => l.count x).foldl max 0
  match (dedupFirst l).filter (fun x => l.count x = maxF) with
  | [] => 0
  | b :: bs => bs.foldl min b

/-- String image of a cell under astype(str): a null cell prints as the text
nan (quality_check.py line 91). -/
def cellStr (c : Cell) : L :=
  match c with
  | some s => s
  | none => "nan".toList

/-- Row rendered to its per-column string images. -/
def strRow (ncols : Nat) (r : List Cell) : List L :=
  (List.range ncols).map fun j => cellStr (r.getD j none)

/-- Count of rows equal to an earlier row (duplicated with keep-first,
quality_check.py line 92). -/
def dupCountGo : List (List L) → List (List L) → Nat
  | _, [] => 0
  | seen, r :: rest => (if r ∈ seen then 1 else 0) + dupCountGo (r :: seen) rest

/-- Characters of the permitted printable ranges of the first garbled-text
regex (quality_check.py line 113): ASCII printable, Latin-1 supplement and
extensions, currency symbols. -/
def permittedA (c : Char) : Bool :=
  decide ((0x20 ≤ c.toNat ∧ c.toNat ≤ 0x7E) ∨ (0xA0 ≤ c.toNat ∧ c.toNat ≤ 0x24F) ∨
    (0x20A0 ≤ c.toNat ∧ c.toNat ≤ 0x20CF))

/-- Word characters of the second garbled-text regex, ASCII reading of the
regex word class. -/
def isWordChar (c : Char) : Bool := c.isAlphanum || c = '_'

/-- The characters the second garbled-text regex treats as normal business
text (quality_check.py line 116). -/
def specialOk (c : Char) : Bool :=
  isWordChar c || pyWs c || c = '$' || c = ',' || c = '.' || c = '%' || c = '(' ||
    c = ')' || c = '-' || c = '\'' || c = '/'

/-- A run of at least three consecutive characters satisfying the predicate. -/
def hasRun3 (p : Char → Bool) : L → Bool
  | a :: b :: c :: rest => (p a && p b && p c) || hasRun3 p (b :: c :: rest)
  | _ => false

/-- The cell increments the garbled counter (quality_check.py lines
109-117). -/
def isGarbledCell (s : L) : Bool :=
  hasRun3 (fun c => !permittedA c) s ||
    (decide (s.length > 5) && hasRun3 (fun c => !specialOk c) s)

/-- Column extraction for the sampling loop (df[col]). -/
def colOf (t : QTable) (j : Nat) : List Cell := t.rows.map fun r => r.getD j none

/-- Inner sampling loop over the first values of one column, with the
running garbled and checked counters and the sample-size break
(quality_check.py lines 107-120). -/
def colGo (ssize : Nat) : List Cell → Nat → Nat → Nat × Nat
  | [], g, ch => (g, ch)
  | v :: vs, g, ch =>
    let gch : Nat × Nat :=
      match v with
      | some s => (g + (if isGarbledCell s then 1 else 0), ch + 1)
      | none => (g, ch)
    if ssize ≤ gch.2 then gch else colGo ssize vs gch.1 gch.2

/-- Outer sampling loop over the columns (quality_check.py lines 107-122). -/
def sampleGo (ssize : Nat) : List (List Cell) → Nat → Nat → Nat × Nat
  | [], g, ch => (g, ch)
  | col :: cols, g, ch =>
    let r := colGo ssize (col.take 20) g ch
    if ssize ≤ r.2 then r else sampleGo ssize cols r.1 r.2

/-- Heuristic 1 (quality_check.py lines 46-49): single column trap. -/
def singleColumnCheck (nr nc : Nat) : List QualityIssue :=
  if nc = 1 ∧ nr > 3 then [QualityIssue.singleColumn nr] else []

/-- Heuristic 2 (quality_check.py lines 51-63): row explosion, unconditional
above seventy rows, above fifty rows only together with more than twelve
columns. -/
def rowExplosionCheck (nr nc : Nat) : List QualityIssue :=
  if nr > 70 then [QualityIssue.rowExplosionHigh nr]
  else if nr > 50 ∧ nc > 12 then [QualityIssue.rowExplosionManyCols nr nc]
  else []

/-- Heuristic 3 (quality_check.py lines 65-74): column count consistency
against the modal non-null count. -/
def columnConsistencyCheck (rcc : List Nat) : List QualityIssue :=
  if rcc.length > 0 then
    if 10 * rcc.countP (fun x => decide (x ≠ modeOf rcc)) > 3 * rcc.length then
      [QualityIssue.inconsistentColumns
        (rcc.countP fun x => decide (x ≠ modeOf rcc)) rcc.length]
    else []
  else []

/-- Heuristic 4 (quality_check.py lines 76-85): empty cell ratio with the
stricter threshold for small tables. -/
def emptyCellsCheck (nr empty total : Nat) : List QualityIssue :=
  if (if nr < 20 then 10 * empty > 6 * total else 2 * empty > total) then
    [QualityIssue.emptyCells empty total]
  else []

/-- Heuristic 5 (quality_check.py lines 87-99): duplicate rows on the string
images, for tables with more than five rows. -/
def duplicateRowsCheck (nr : Nat) (rows : List (List L)) : List QualityIssue :=
  if nr > 5 then
    if 5 * dupCountGo [] rows > nr then
      [QualityIssue.duplicateRows (dupCountGo [] rows) nr]
    else []
  else []

/-- Heuristic 6 (quality_check.py lines 101-125): garbled text over the
sampled cells. -/
def garbledTextCheck (gc : Nat × Nat) : List QualityIssue :=
  if gc.2 > 0 ∧ 10 * gc.1 > gc.2 then [QualityIssue.garbledText gc.1 gc.2] else []

/-- detect_quality_issues (quality_check.py lines 7-127) on a DataFrame
input.  Ratio comparisons are taken exactly: above 0.3, 0.6, 0.5, 0.2 and
0.1 become the corresponding rational inequalities.  The issues of the six
heuristics are appended in source order. -/
def detect_quality_issues (t : QTable) : List QualityIssue :=
  -- df.empty: a frame with no rows or no columns reports no issues
  if numRows t = 0 ∨ numCols t = 0 then []
  else
    singleColumnCheck (numRows t) (numCols t) ++
    rowExplosionCheck (numRows t) (numCols t) ++
    columnConsistencyCheck (t.rows.map (notnaCountRow (numCols t))) ++
    emptyCellsCheck (numRows t) ((t.rows.map (isnaCountRow (numCols t))).sum)
      (numRows t * numCols t) ++
    duplicateRowsCheck (numRows t) (t.rows.map (strRow (numCols t))) ++
    garbledTextCheck
      (sampleGo (min 100 (numRows t * numCols t)) ((List.range (numCols t)).map (colOf t)) 0 0)

/-!  Extraction-path selection (converter.py, table_extraction.py). -/

/-- quality_issues_detected of extract_tables_from_text_pdf
(table_extraction.py lines 444-476): some extracted table reported
issues. -/
def textPdfQualityFlag (ts : List QTable) : Bool :=
  ts.any fun t => !(detect_quality_issues t).isEmpty

/-- The fallback decision of convert_pdf_to_excel (converter.py line 117):
retry through the vision path when quality issues were detected or no
tables were found. -/
def visionFallbackTriggered (ts : List QTable) : Bool :=
  textPdfQualityFlag ts || ts.isEmpty

/-- Tail of convert_pdf_to_excel (converter.py lines 134-159): an empty
table set returns the null result without raising; a non-empty set is
handed to the downstream collaborators (merging, validation report,
serialization), abstracted as the function argument, and their output is
returned. -/
def convert_pdf_to_excel_result {β : Type} (createOut : List QTable → β)
    (ts : List QTable) : Except String (Option β) :=
  Except.ok (if ts.isEmpty then none else some (createOut ts))

/-- One iteration of the batch loop (converter.py lines 230-252): append to
the success list when the conversion returned a truthy result, append to
the failed list when it raised, record nothing otherwise. -/
def batchStep {F E β : Type} (conv : F → Except E (Option β))
    (acc : List F × List F) (f : F) : List F × List F :=
  match conv f with
  | Except.ok (some _) => (acc.1 ++ [f], acc.2)
  | Except.ok none => acc
  | Except.error _ => (acc.1, acc.2 ++ [f])

/-- batch_convert_directory (converter.py lines 227-262): one pass over the
files accumulating the success and failed lists. -/
def batch_convert_directory {F E β : Type} (conv : F → Except E (Option β))
    (files : List F) : List F × List F :=
  files.foldl (batchStep conv) ([], [])

/-!  Roll-up range detection (excel_writer.py add_rollup_formulas). -/

/-- Row-type tag of a cell as compared by the source: strip then
uppercase. -/
def upperStrip (s : L) : L := (pstrip s).map Char.toUpper

/-- Forward scan of add_rollup_formulas (excel_writer.py lines 85-96): walk
the rows after the roll-up row, record first and last DETAIL rows, stop at
a ROLLUP or HEADER row, skip anything else.  The scan walks the remaining
suffix of the tag column while tracking the absolute row index. -/
def fwdScanGo : List Cell → Nat → Option Nat → Option Nat → Option Nat × Option Nat
  | [], _, st, en => (st, en)
  | c :: rest, i, st, en =>
    match c with
    | some s =>
      if upperStrip s = "DETAIL".toList then
        fwdScanGo rest (i + 1) (if st.isNone then some i else st) (some i)
      else if upperStrip s = "ROLLUP".toList ∨ upperStrip s = "HEADER".toList then (st, en)
      else fwdScanGo rest (i + 1) st en
    | none => fwdScanGo rest (i + 1) st en

/-- Forward scan starting just after the roll-up row. -/
def fwdScan (tags : List Cell) (idx : Nat) : Option Nat × Option Nat :=
  fwdScanGo (tags.drop (idx + 1)) (idx + 1) none none

/-- Backward scan of add_rollup_formulas (excel_writer.py lines 99-111): the
first argument is one past the row to inspect, walking down to row zero. -/
def bwdScan (tags : List Cell) : Nat → Option Nat → Option Nat → Option Nat × Option Nat
  | 0, st, en => (st, en)
  | j + 1, st, en =>
    match tags.getD j none with
    | some s =>
      if upperStrip s = "DETAIL".toList then
        bwdScan tags j (some j) (if en.isNone then some j else en)
      else if upperStrip s = "ROLLUP".toList ∨ upperStrip s = "HEADER".toList then (st, en)
      else bwdScan tags j st en
    | none => bwdScan tags j st en

/-- Detail range detection for one roll-up row (excel_writer.py lines
77-112): forward scan first, backward scan only when the forward scan found
no detail row, a formula range only when both endpoints were found. -/
def rollupRange (tags : List Cell) (idx : Nat) : Option (Nat × Nat) :=
  let f := fwdScan tags idx
  let r := if f.1.isNone then bwdScan tags idx f.1 f.2 else f
  match r.1, r.2 with
  | some s, some e => some (s, e)
  | _, _ => none

/-- Formula emission for one roll-up row (excel_writer.py lines 113-127):
one sum range per numeric column, rows offset by two for the header row and
one-based addressing; nothing is emitted without a detected range. -/
def add_rollup_formulas (tags : List Cell) (numericCols : List Nat) (idx : Nat) :
    List (Nat × Nat × Nat) :=
  match rollupRange tags idx with
  | some (s, e) => numericCols.map fun c => (c, s + 2, e + 2)
  | none => []

/-!  Numeric Reconciliation Validator (validation.py).

The number-extraction regex of extract_numbers_from_text is implemented as
a direct scanner with the greedy semantics of the source pattern: optional
dollar sign, optional open paren, one to three digits, any number of
comma-plus-three-digit groups, an optional decimal fraction, optional close
paren, optional percent sign.  No backtracking is needed: the two leading
optionals can only succeed together with the mandatory digits, and
everything after the digits is optional. -/

/-- Greedy match of the comma-grouped thousands blocks, returning the
consumed text and the remainder.  One block is a comma followed by exactly
three digits. -/
def groupsGo : L → L × L
  | ',' :: d1 :: d2 :: d3 :: rest =>
    if d1.isDigit && d2.isDigit && d3.isDigit then
      let r := groupsGo rest
      (',' :: d1 :: d2 :: d3 :: r.1, r.2)
    else ([], ',' :: d1 :: d2 :: d3 :: rest)
  | l => ([], l)

/-- Greedy match of the optional decimal fraction. -/
def fracGo : L → L × L
  | '.' :: rest =>
    let d := rest.takeWhile Char.isDigit
    if d.isEmpty then ([], '.' :: rest) else ('.' :: d, rest.drop d.length)
  | l => ([], l)

/-- Attempt of the number regex at the head of the text, returning the
matched token and the remainder on success. -/
def tryMatchNum (l : L) : Option (L × L) :=
  let p1 : L × L := match l with | '$' :: r => (['$'], r) | _ => ([], l)
  let p2 : L × L := match p1.2 with | '(' :: r => (['('], r) | _ => ([], p1.2)
  let d := (p2.2.takeWhile Char.isDigit).take 3
  if d.isEmpty then none
  else
    let g := groupsGo (p2.2.drop d.length)
    let f := fracGo g.2
    let p5 : L × L := match f.2 with | ')' :: r => ([')'], r) | _ => ([], f.2)
    let p6 : L × L := match p5.2 with | '%' :: r => (['%'], r) | _ => ([], p5.2)
    some (p1.1 ++ p2.1 ++ d ++ g.1 ++ f.1 ++ p5.1 ++ p6.1, p6.2)

/-- The findall scan: try the pattern at every position, continue after each
match.  The fuel equals the text length; every step consumes at least one
character (a match contains at least one digit), so the fuel never runs
out. -/
def findNumbersGo : Nat → L → List L
  | 0, _ => []
  | _, [] => []
  | fuel + 1, c :: rest =>
    match tryMatchNum (c :: rest) with
    | some (tok, r) => tok :: findNumbersGo fuel r
    | none => findNumbersGo fuel rest

/-- Normalization of one matched token (validation.py lines 26-32): drop
dollar signs, commas and percent signs, and rewrite a fully
paren-wrapped token to its negated form. -/
def cleanNumber (l : L) : L :=
  let c := l.filter fun ch => !(ch = '$' || ch = ',' || ch = '%')
  if c.head? = some '(' ∧ c.getLast? = some ')' then '-' :: (c.drop 1).dropLast else c

/-- extract_numbers_from_text (validation.py lines 10-34). -/
def extract_numbers_from_text (l : L) : List L :=
  (findNumbersGo l.length l).map cleanNumber

def digitsToNat (l : L) : Nat := l.foldl (fun acc c => 10 * acc + (c.toNat - 48)) 0

/-- Trailing zeros of a decimal fraction, dropped for the canonical form. -/
def stripTrailingZeros (l : L) : L := (l.reverse.dropWhile fun c => c = '0').reverse

/-- Conversion of a normalized token by the Python float constructor,
restricted to the token shapes the extractor produces: an optional minus
sign, digits, an optional decimal fraction.  Tokens with leftover parens
fail and stay strings.  The value is kept as a canonical decimal pair
(mantissa, number of fraction digits) so that two tokens compare equal
exactly when they denote the same number. -/
def pyFloat (l : L) : Option (Int × Nat) :=
  let sb : Bool × L := match l with | '-' :: r => (true, r) | _ => (false, l)
  let ip := sb.2.takeWhile Char.isDigit
  match sb.2.drop ip.length with
  | [] =>
    if ip.isEmpty then none
    else some ((if sb.1 then -1 else 1) * (digitsToNat ip : Int), 0)
  | '.' :: fr =>
    let fp := fr.takeWhile Char.isDigit
    if fp.length = fr.length ∧ ¬(ip.isEmpty ∧ fp.isEmpty) then
      let fz := stripTrailingZeros fp
      some ((if sb.1 then -1 else 1) * (digitsToNat (ip ++ fz) : Int), fz.length)
    else none
  | _ => none

/-- A key of the comparison counters: a parsed numeric value, or the raw
token text when the float conversion fails (validation.py lines
127-143). -/
inductive NumKey where
  | num (q : Int × Nat)
  | raw (s : L)
deriving DecidableEq

def toKey (l : L) : NumKey :=
  match pyFloat l with
  | some q => NumKey.num q
  | none => NumKey.raw l

def keyCount (ks : List NumKey) (k : NumKey) : Nat := ks.count k

/-- A table as seen by the validator: named columns of cells. -/
structure PdfDF where
  cols : List (String × List Cell)

/-- extract_numbers_from_dataframe (validation.py lines 63-86): skip the
metadata columns, extract from every non-null cell, column major. -/
def extract_numbers_from_dataframe (df : PdfDF) : List L :=
  ((df.cols.filter fun c =>
      !(c.1 = "Row_Type" || c.1 = "Category" || c.1 = "Notes")).map
    (fun c => (c.2.map fun cell =>
      match cell with
      | some s => extract_numbers_from_text s
      | none => []).join)).join

/-- The statistics block and discrepancy lists of the validation report. -/
structure ValidationStats where
  totalPdf : Nat
  totalTables : Nat
  matchCount : Nat
  missingInTables : List (NumKey × Nat × Nat)
  extraInTables : List (NumKey × Nat × Nat)
deriving DecidableEq

/-- The accuracy statistic of the report (validation.py line 177): the
match count over the source total, as a percentage, zero when the source
had no numbers.  The source rounds it to two decimal places when printing
the report. -/
def accuracy_percent (st : ValidationStats) : Rat :=
  if st.totalPdf > 0 then (st.matchCount : Rat) * 100 / (st.totalPdf : Rat) else 0

/-- The comparison core of validate_extracted_data (validation.py lines
114-192), given the extracted page text.  Reading the PDF text itself is an
excluded collaborator. -/
def validate_extracted_data (srcText : L) (tables : List PdfDF) : ValidationStats :=
  let pdfKeys := (extract_numbers_from_text srcText).map toKey
  let tabKeys := ((tables.map extract_numbers_from_dataframe).join).map toKey
  let m := ((dedupFirst (pdfKeys ++ tabKeys)).map fun k =>
    min (keyCount pdfKeys k) (keyCount tabKeys k)).sum
  { totalPdf := pdfKeys.length
    totalTables := tabKeys.length
    matchCount := m
    missingInTables :=
      (dedupFirst pdfKeys).filterMap fun k =>
        if keyCount tabKeys k < keyCount pdfKeys k then
          some (k, keyCount pdfKeys k, keyCount tabKeys k)
        else none
    extraInTables :=
      (dedupFirst tabKeys).filterMap fun k =>
        if keyCount tabKeys k > keyCount pdfKeys k then
          some (k, keyCount pdfKeys k, keyCount tabKeys k)
        else none }

/-!  Supporting lemmas for the quality heuristics. -/

lemma sweepRow_length (r : List Cell) : (sweepRow r).1.length = r.length := by
  cases r with
  | nil => rfl
  | cons c cs => simpa using cascadeGo_length c cs

lemma cascadeRow_length (r : List Cell) : (cascadeRow r).length = r.length := by
  induction r using cascadeRow.induct with
  | case1 r h ih =>
    rw [cascadeRow, dif_pos h, ih, sweepRow_length]
  | case2 r h =>
    have h' : (sweepRow r).2 = false := by simpa using h
    rw [cascadeRow, dif_neg h, sweepRow_false_id h']

lemma foldl_dedup_mem {α : Type} [DecidableEq α] :
    ∀ (n : Nat) (k : α) (acc : List α), k ∈ acc →
      (List.replicate n k).foldl (fun acc a => if a ∈ acc then acc else acc ++ [a]) acc =
        acc := by
  intro n
  induction n with
  | zero => intro k acc hk; rfl
  | succ m ih =>
    intro k acc hk
    rw [List.replicate_succ, List.foldl_cons, if_pos hk]
    exact ih k acc hk

lemma dedupFirst_replicate {α : Type} [DecidableEq α] (n : Nat) (k : α) (h : 0 < n) :
    dedupFirst (List.replicate n k) = [k] := by
  cases n with
  | zero => omega
  | succ m =>
    unfold dedupFirst
    rw [List.replicate_succ, List.foldl_cons, if_neg (by simp)]
    exact foldl_dedup_mem m k [k] (by simp)

lemma foldl_max_replicate (m v : Nat) :
    ∀ a, (List.replicate m v).foldl max a = if m = 0 then a else max a v := by
  induction m with
  | zero => intro a; rfl
  | succ j ih =>
    intro a
    rw [List.replicate_succ, List.foldl_cons, ih (max a v)]
    cases j with
    | zero => simp
    | succ j2 =>
      have h1 : ¬(j2 + 1 = 0) := by omega
      have h2 : ¬(j2 + 1 + 1 = 0) := by omega
      rw [if_neg h1, if_neg h2, Nat.max_assoc, Nat.max_self]

lemma modeOf_replicate (n k : Nat) (h : 0 < n) : modeOf (List.replicate n k) = k := by
  unfold modeOf
  have h1 : (List.replicate n k).map (fun x => (List.replicate n k).count x) =
      List.replicate n n := by
    rw [List.map_replicate, List.count_replicate_self]
  rw [h1, foldl_max_replicate n n 0, if_neg (by omega), dedupFirst_replicate n k h]
  have h2 : max 0 n = n := by omega
  simp [List.count_replicate_self, h2]

lemma getD_eq_of_lt {l : List Cell} {j : Nat} (h : j < l.length) :
    l.getD j none = l[j] := List.getD_eq_getElem l none h

lemma notnaCountRow_full {nc : Nat} {r : List Cell} (hlen : r.length = nc)
    (hfull : ∀ c ∈ r, c.isSome = true) : notnaCountRow nc r = nc := by
  unfold notnaCountRow
  have := List.countP_eq_length
    (p := fun j => (r.getD j none).isSome) (l := List.range nc)
  rw [List.length_range] at this
  rw [this]
  intro j hj
  have hjl : j < r.length := by rw [hlen]; exact List.mem_range.1 hj
  rw [getD_eq_of_lt hjl]
  exact hfull r[j] (List.getElem_mem hjl)

lemma isnaCountRow_full {nc : Nat} {r : List Cell} (hlen : r.length = nc)
    (hfull : ∀ c ∈ r, c.isSome = true) : isnaCountRow nc r = 0 := by
  unfold isnaCountRow
  rw [List.countP_eq_zero]
  intro j hj
  have hjl : j < r.length := by rw [hlen]; exact List.mem_range.1 hj
  rw [getD_eq_of_lt hjl]
  have := hfull r[j] (List.getElem_mem hjl)
  simp [Option.isNone_iff_eq_none]
  intro hn
  rw [hn] at this
  exact absurd this (by simp)

lemma dupCountGo_zero :
    ∀ (l seen : List (List L)), l.Nodup → (∀ x ∈ l, x ∉ seen) → dupCountGo seen l = 0 := by
  intro l
  induction l with
  | nil => intro seen h1 h2; rfl
  | cons r rest ih =>
    intro seen h1 h2
    show (if r ∈ seen then 1 else 0) + dupCountGo (r :: seen) rest = 0
    rw [if_neg (h2 r (by simp))]
    rw [ih (r :: seen) (List.Nodup.of_cons h1) ?_]
    intro x hx
    simp only [List.mem_cons]
    rintro (hxe | hxs)
    · subst hxe
      exact (List.nodup_cons.1 h1).1 hx
    · exact h2 x (by simp [hx]) hxs

lemma strRow_inj {nc : Nat} {r1 r2 : List Cell} (h1 : r1.length = nc) (h2 : r2.length = nc)
    (hf1 : ∀ c ∈ r1, c.isSome = true) (hf2 : ∀ c ∈ r2, c.isSome = true)
    (heq : strRow nc r1 = strRow nc r2) : r1 = r2 := by
  refine List.ext_getElem (by omega) ?_
  intro j hj1 hj2
  have hjn : j < nc := by omega
  have hs : cellStr (r1.getD j none) = cellStr (r2.getD j none) := by
    have := congrArg (fun l => l.getD j []) heq
    simpa [strRow, List.getD_eq_getElem?_getD, List.getElem?_map,
      List.getElem?_range hjn] using this
  rw [getD_eq_of_lt hj1, getD_eq_of_lt hj2] at hs
  obtain ⟨a, ha⟩ := Option.isSome_iff_exists.1 (hf1 r1[j] (List.getElem_mem hj1))
  obtain ⟨b, hb⟩ := Option.isSome_iff_exists.1 (hf2 r2[j] (List.getElem_mem hj2))
  rw [ha, hb]
  rw [ha, hb] at hs
  simpa [cellStr] using hs

lemma colGo_no_garbled {ssize : Nat} :
    ∀ (vs : List Cell) (g ch : Nat),
      (∀ s : L, some s ∈ vs → isGarbledCell s = false) → (colGo ssize vs g ch).1 = g := by
  intro vs
  induction vs with
  | nil => intro g ch h; rfl
  | cons v rest ih =>
    intro g ch h
    cases v with
    | some s =>
      have hg : isGarbledCell s = false := h s (by simp)
      simp only [colGo, hg, Bool.false_eq_true, if_neg, if_false]
      split_ifs with hss
      · simp
      · simpa using ih (g + 0) (ch + 1) fun s2 hs2 => h s2 (by simp [hs2])
    | none =>
      simp only [colGo]
      split_ifs with hss
      · rfl
      · exact ih g ch fun s2 hs2 => h s2 (by simp [hs2])

lemma sampleGo_no_garbled {ssize : Nat} :
    ∀ (cols : List (List Cell)) (g ch : Nat),
      (∀ col ∈ cols, ∀ s : L, some s ∈ col → isGarbledCell s = false) →
      (sampleGo ssize cols g ch).1 = g := by
  intro cols
  induction cols with
  | nil => intro g ch h; rfl
  | cons col rest ih =>
    intro g ch h
    have hcol : (colGo ssize (col.take 20) g ch).1 = g :=
      colGo_no_garbled (col.take 20) g ch fun s hs =>
        h col (by simp) s (List.mem_of_mem_take hs)
    simp only [sampleGo]
    split_ifs with hss
    · exact hcol
    · rw [ih (colGo ssize (col.take 20) g ch).1 (colGo ssize (col.take 20) g ch).2
        fun c hc s hs => h c (by simp [hc]) s hs]
      exact hcol

lemma getD_some_mem {l : List Cell} {j : Nat} {s : L} (h : l.getD j none = some s) :
    some s ∈ l := by
  rw [List.getD_eq_getElem?_getD] at h
  cases hj : l[j]? with
  | none => rw [hj] at h; simp at h
  | some v =>
    rw [hj] at h
    simp only [Option.getD_some] at h
    subst h
    exact List.getElem?_mem hj

lemma columnConsistencyCheck_replicate (n k : Nat) :
    columnConsistencyCheck (List.replicate n k) = [] := by
  unfold columnConsistencyCheck
  cases n with
  | zero => rfl
  | succ m =>
    rw [if_pos (by simp)]
    have hmode := modeOf_replicate (m + 1) k (by omega)
    have hcnt : (List.replicate (m + 1) k).countP
        (fun x => decide (x ≠ modeOf (List.replicate (m + 1) k))) = 0 := by
      rw [List.countP_eq_zero]
      intro a ha
      have hak : a = k := List.eq_of_mem_replicate ha
      simp [hak, hmode]
    rw [hcnt, if_neg (by simp)]

lemma emptyCellsCheck_zero (nr total : Nat) : emptyCellsCheck nr 0 total = [] := by
  unfold emptyCellsCheck
  rw [if_neg]
  split_ifs <;> omega

lemma duplicateRowsCheck_nodup (nr : Nat) (rows : List (List L)) (h : rows.Nodup) :
    duplicateRowsCheck nr rows = [] := by
  unfold duplicateRowsCheck
  have hdup := dupCountGo_zero rows [] h (by simp)
  split_ifs with h1 h2
  · rw [hdup] at h2; omega
  · rfl
  · rfl

lemma garbledTextCheck_zero (gc : Nat × Nat) (h : gc.1 = 0) : garbledTextCheck gc = [] := by
  unfold garbledTextCheck
  rw [if_neg]
  rintro ⟨h1, h2⟩
  rw [h] at h2
  omega

lemma mem_singleColumnCheck {x : QualityIssue} {nr nc : Nat}
    (h : x ∈ singleColumnCheck nr nc) : x = QualityIssue.singleColumn nr := by
  unfold singleColumnCheck at h
  split_ifs at h
  all_goals first
  | simpa using h
  | simp at h

lemma mem_rowExplosionCheck {x : QualityIssue} {nr nc : Nat}
    (h : x ∈ rowExplosionCheck nr nc) :
    x = QualityIssue.rowExplosionHigh nr ∨ x = QualityIssue.rowExplosionManyCols nr nc := by
  unfold rowExplosionCheck at h
  split_ifs at h
  · exact Or.inl (by simpa using h)
  · exact Or.inr (by simpa using h)
  · simp at h

lemma mem_columnConsistencyCheck {x : QualityIssue} {rcc : List Nat}
    (h : x ∈ columnConsistencyCheck rcc) :
    x = QualityIssue.inconsistentColumns
      (rcc.countP fun v => decide (v ≠ modeOf rcc)) rcc.length := by
  unfold columnConsistencyCheck at h
  split_ifs at h
  all_goals first
  | simpa using h
  | simp at h

lemma mem_emptyCellsCheck {x : QualityIssue} {nr empty total : Nat}
    (h : x ∈ emptyCellsCheck nr empty total) : x = QualityIssue.emptyCells empty total := by
  unfold emptyCellsCheck at h
  split_ifs at h
  all_goals first
  | simpa using h
  | simp at h

lemma mem_duplicateRowsCheck {x : QualityIssue} {nr : Nat} {rows : List (List L)}
    (h : x ∈ duplicateRowsCheck nr rows) :
    x = QualityIssue.duplicateRows (dupCountGo [] rows) nr := by
  unfold duplicateRowsCheck at h
  split_ifs at h
  all_goals first
  | simpa using h
  | simp at h

lemma mem_garbledTextCheck {x : QualityIssue} {gc : Nat × Nat}
    (h : x ∈ garbledTextCheck gc) : x = QualityIssue.garbledText gc.1 gc.2 := by
  unfold garbledTextCheck at h
  split_ifs at h
  all_goals first
  | simpa using h
  | simp at h

/-- Membership characterization of the batch loop accumulator. -/
lemma batch_mem {F E β : Type} (conv : F → Except E (Option β)) :
    ∀ (files : List F) (acc : List F × List F) (f : F),
      (f ∈ (files.foldl (batchStep conv) acc).1 ↔
        f ∈ acc.1 ∨ (f ∈ files ∧ ∃ b, conv f = Except.ok (some b))) ∧
      (f ∈ (files.foldl (batchStep conv) acc).2 ↔
        f ∈ acc.2 ∨ (f ∈ files ∧ ∃ e, conv f = Except.error e)) := by
  intro files
  induction files with
  | nil => intro acc f; simp
  | cons f0 rest ih =>
    intro acc f
    rw [List.foldl_cons]
    have hstep := ih (batchStep conv acc f0) f
    constructor
    · rw [hstep.1]
      cases hc : conv f0 with
      | ok ob =>
        cases ob with
        | some b =>
          simp only [batchStep, hc, List.mem_append, List.mem_cons, List.not_mem_nil, or_false]
          constructor
          · rintro ((hx | rfl) | ⟨hr, hb⟩)
            · exact Or.inl hx
            · exact Or.inr ⟨Or.inl rfl, b, hc⟩
            · exact Or.inr ⟨Or.inr hr, hb⟩
          · rintro (hx | ⟨(rfl | hr), hb⟩)
            · exact Or.inl (Or.inl hx)
            · exact Or.inl (Or.inr rfl)
            · exact Or.inr ⟨hr, hb⟩
        | none =>
          simp only [batchStep, hc, List.mem_cons]
          constructor
          · rintro (hx | ⟨hr, hb⟩)
            · exact Or.inl hx
            · exact Or.inr ⟨Or.inr hr, hb⟩
          · rintro (hx | ⟨(rfl | hr), hb⟩)
            · exact Or.inl hx
            · obtain ⟨b, hb2⟩ := hb
              rw [hc] at hb2
              simp at hb2
            · exact Or.inr ⟨hr, hb⟩
      | error e =>
        simp only [batchStep, hc, List.mem_cons]
        constructor
        · rintro (hx | ⟨hr, hb⟩)
          · exact Or.inl hx
          · exact Or.inr ⟨Or.inr hr, hb⟩
        · rintro (hx | ⟨(rfl | hr), hb⟩)
          · exact Or.inl hx
          · obtain ⟨b, hb2⟩ := hb
            rw [hc] at hb2
            simp at hb2
          · exact Or.inr ⟨hr, hb⟩
    · rw [hstep.2]
      cases hc : conv f0 with
      | ok ob =>
        cases ob with
        | some b =>
          simp only [batchStep, hc, List.mem_cons]
          constructor
          · rintro (hx | ⟨hr, hb⟩)
            · exact Or.inl hx
            · exact Or.inr ⟨Or.inr hr, hb⟩
          · rintro (hx | ⟨(rfl | hr), hb⟩)
            · exact Or.inl hx
            · obtain ⟨e, he⟩ := hb
              rw [hc] at he
              simp at he
            · exact Or.inr ⟨hr, hb⟩
        | none =>
          simp only [batchStep, hc, List.mem_cons]
          constructor
          · rintro (hx | ⟨hr, hb⟩)
            · exact Or.inl hx
            · exact Or.inr ⟨Or.inr hr, hb⟩
          · rintro (hx | ⟨(rfl | hr), hb⟩)
            · exact Or.inl hx
            · obtain ⟨e, he⟩ := hb
              rw [hc] at he
              simp at he
            · exact Or.inr ⟨hr, hb⟩
      | error e =>
        simp only [batchStep, hc, List.mem_append, List.mem_cons, List.not_mem_nil, or_false]
        constructor
        · rintro ((hx | rfl) | ⟨hr, hb⟩)
          · exact Or.inl hx
          · exact Or.inr ⟨Or.inl rfl, e, hc⟩
          · exact Or.inr ⟨Or.inr hr, hb⟩
        · rintro (hx | ⟨(rfl | hr), hb⟩)
          · exact Or.inl (Or.inl hx)
          · exact Or.inl (Or.inr rfl)
          · exact Or.inr ⟨hr, hb⟩

/-!  Concrete inputs used by the claim theorems. -/

def c1Source : L := "Revenue $1,234 and (500) reserve".toList

def c1Table : PdfDF := ⟨[("Values", [some "1234".toList, some "-500".toList])]⟩

def c2row : List Cell := [some "X".toList, some "123 )(".toList]

def c2T : List (List Cell) := [c2row]

def c2row1 : List Cell := [some "X".toList, some "123)(".toList]

def c2row2 : List Cell := [some "X)".toList, some "(123)(".toList]

def c3row : List Cell := [some "1 (".toList, some "2".toList]

def q4 : QTable := ⟨["A"], [[some ['a']], [some ['b']], [some ['c']], [some ['d']]]⟩

def q22 : QTable := ⟨["A", "B"], [[some ['1'], some ['2']], [some ['3'], some ['4']]]⟩

def q0c : QTable := ⟨[], List.replicate 71 []⟩

def q71 : QTable := ⟨["A"], List.replicate 71 [some ['x']]⟩

def q60 : QTable := ⟨List.replicate 13 "A", List.replicate 60 (List.replicate 13 none)⟩

def q80 : QTable := ⟨List.replicate 15 "A", List.replicate 80 (List.replicate 15 (some ['x']))⟩

def q1 : QTable := ⟨["A"], [[some ['x']]]⟩

def c7Fwd : List Cell :=
  [some "ROLLUP".toList, some "DETAIL".toList, some "DETAIL".toList, some "HEADER".toList]

def c7Bwd : List Cell := [some "DETAIL".toList, some "DETAIL".toList, some "ROLLUP".toList]

def c7None : List Cell := [some "HEADER".toList]

/-- A cell that is null or holds a non-garbled string. -/
def cellNotGarbled (c : Cell) : Bool :=
  match c with
  | some s => !isGarbledCell s
  | none => true

def conv0 : Nat → Except Unit (Option Nat) := fun n =>
  if n = 0 then Except.ok (some 5)
  else if n = 1 then Except.ok none
  else Except.error ()

/-!  Claim theorems. -/

/-- C1 counterexample: on the source text of the claim and a table whose
data cells are the texts 1234 and -500, the validator does not report two
matches with full accuracy and empty discrepancy lists; it reports zero
matches and a nonempty missing list, because the extraction rule tokenizes
the cell text 1234 as 123 and 4 and drops the minus sign of -500. -/
theorem c1_counterexample :
    (validate_extracted_data c1Source [c1Table]).matchCount = 0 ∧
    (validate_extracted_data c1Source [c1Table]).missingInTables ≠ [] ∧
    extract_numbers_from_text "1234".toList = ["123".toList, "4".toList] ∧
    extract_numbers_from_text "-500".toList = ["500".toList] := by
  refine ⟨by decide, by decide, by decide, by decide⟩

/-- C1 (corrected): on the source text of the claim, the source side
normalizes as described (the dollar-comma token to 1234 and the
paren-wrapped 500 to -500), but the table side tokenizes the cell 1234 as
123 and 4 (no thousands grouping) and the cell -500 as 500 (the minus sign
is outside the pattern); the report therefore has zero matches, zero
accuracy, both source values missing and all three table tokens extra. -/
theorem c1_validator_actual_report :
    extract_numbers_from_text c1Source = ["1234".toList, "-500".toList] ∧
    toKey "1234".toList = NumKey.num (1234, 0) ∧
    toKey "-500".toList = NumKey.num (-500, 0) ∧
    validate_extracted_data c1Source [c1Table] =
      { totalPdf := 2
        totalTables := 3
        matchCount := 0
        missingInTables := [(NumKey.num (1234, 0), 1, 0), (NumKey.num (-500, 0), 1, 0)]
        extraInTables := [(NumKey.num (123, 0), 0, 1), (NumKey.num (4, 0), 0, 1),
          (NumKey.num (500, 0), 0, 1)] } ∧
    accuracy_percent (validate_extracted_data c1Source [c1Table]) = 0 := by
  have hst : validate_extracted_data c1Source [c1Table] =
      { totalPdf := 2
        totalTables := 3
        matchCount := 0
        missingInTables := [(NumKey.num (1234, 0), 1, 0), (NumKey.num (-500, 0), 1, 0)]
        extraInTables := [(NumKey.num (123, 0), 0, 1), (NumKey.num (4, 0), 0, 1),
          (NumKey.num (500, 0), 0, 1)] } := by decide
  refine ⟨by decide, by decide, by decide, hst, ?_⟩
  rw [hst]
  simp [accuracy_percent]

/-- C2 counterexample: the full repair (cascade pass, then single-cell
pass, in pipeline order) is not idempotent.  On the single-row table with
cells X and 123-space-close-open, the first repair only deletes the inner
space; the second repair then sees the number-close-open pattern the
single-cell pass created and moves parens across the cells again. -/
theorem c2_counterexample : repairTable (repairTable c2T) ≠ repairTable c2T := by
  have hA : cascadeRow c2row = c2row := cascadeRow_of_false (by decide)
  have h1 : repairTable c2T = [c2row1] := by
    show clean_malformed_parentheses (clean_dataframe_parentheses c2T) = [c2row1]
    have hc : clean_dataframe_parentheses c2T = [c2row.map cleanupCell] := by
      show [cleanRowB c2row] = [c2row.map cleanupCell]
      rw [cleanRowB, hA]
    rw [hc]
    decide
  have hs1 : sweepRow c2row1 = (c2row2, true) := by decide
  have hs2 : (sweepRow c2row2).2 = false := by decide
  have hB : cascadeRow c2row1 = c2row2 := by
    rw [cascadeRow, dif_pos (by rw [hs1])]
    rw [show (sweepRow c2row1).1 = c2row2 from by rw [hs1]]
    exact cascadeRow_of_false hs2
  have h2 : repairTable [c2row1] = [c2row2] := by
    show clean_malformed_parentheses (clean_dataframe_parentheses [c2row1]) = [c2row2]
    have hc : clean_dataframe_parentheses [c2row1] = [c2row2.map cleanupCell] := by
      show [cleanRowB c2row1] = [c2row2.map cleanupCell]
      rw [cleanRowB, hB]
    rw [hc]
    decide
  rw [h1, h2]
  decide

/-- C2 (corrected): the cross-cell cascade pass alone is idempotent: on any
table, a second run of clean_dataframe_parentheses changes no cell.  The
full repair, with the single-cell pass appended, is not idempotent (see the
counterexample). -/
theorem c2_cascade_pass_idempotent (t : List (List Cell)) :
    clean_dataframe_parentheses (clean_dataframe_parentheses t) =
      clean_dataframe_parentheses t := by
  unfold clean_dataframe_parentheses
  rw [List.map_map]
  exact List.map_congr_left fun r hr => cleanRowB_idem r

/-- C3: after the cascade pass reaches its fixed point (the full
clean_dataframe_parentheses output), no cell of any row ends with a
dangling open paren or matches the number-close-open pattern, except
possibly at the final column of the row. -/
theorem c3_no_cascade_triggers_left_of_final_column
    (t : List (List Cell)) (row : List Cell)
    (hrow : row ∈ clean_dataframe_parentheses t) (j : Nat)
    (hj : j + 1 < row.length) :
    danglingOpenCell (row.getD j none) = false ∧
    numParenParenCell (row.getD j none) = false := by
  obtain ⟨r, hr, rfl⟩ := List.mem_map.1 hrow
  exact cleanRowB_conds r j hj

theorem c3_witness :
    danglingOpenCell ((cleanRowB c3row).getD 0 none) = false ∧
    numParenParenCell ((cleanRowB c3row).getD 0 none) = false :=
  c3_no_cascade_triggers_left_of_final_column [c3row] (cleanRowB c3row)
    (by simp [clean_dataframe_parentheses]) 0
    (by rw [cleanRowB, List.length_map, cascadeRow_length]; decide)

/-- C4: the cascade loop terminates on every finite row of string-or-null
cells, whatever the cell contents: the loop function is total (by the
strictly decreasing lexicographic measure) and its output is a genuine
fixed point, so the sweep that ends the loop reports no change and running
the loop again changes nothing. -/
theorem c4_cascade_loop_terminates (r : List Cell) :
    sweepRow (cascadeRow r) = (cascadeRow r, false) ∧
    cascadeRow (cascadeRow r) = cascadeRow r :=
  ⟨cascadeRow_fix r, cascadeRow_of_false (by rw [cascadeRow_fix])⟩

/-- C5 (corrected): a table with no empty cell, no duplicate row,
consistent per-row non-null counts, at most seventy rows and no garbled
cell reports zero issues, provided additionally that it does not fall into
the single-column trap (exactly one column with more than three rows) and
does not trigger the many-column branch of the row-explosion heuristic
(more than fifty rows together with more than twelve columns); without the
two provisos the engine does report issues regardless of cleanliness. -/
theorem c5_clean_table_reports_zero_issues (t : QTable)
    (hrect : ∀ r ∈ t.rows, r.length = numCols t)
    (hfull : ∀ r ∈ t.rows, ∀ c ∈ r, c.isSome = true)
    (hconsist : ∀ r1 ∈ t.rows, ∀ r2 ∈ t.rows,
      notnaCountRow (numCols t) r1 = notnaCountRow (numCols t) r2)
    (hnodup : t.rows.Nodup)
    (hrows : numRows t ≤ 70)
    (hgarb : ∀ r ∈ t.rows, (r.all cellNotGarbled) = true)
    (hsingle : ¬(numCols t = 1 ∧ numRows t > 3))
    (hmany : ¬(numRows t > 50 ∧ numCols t > 12)) :
    detect_quality_issues t = [] := by
  by_cases h0 : numRows t = 0 ∨ numCols t = 0
  · unfold detect_quality_issues
    rw [if_pos h0]
  · unfold detect_quality_issues
    rw [if_neg h0]
    have hrcc : t.rows.map (notnaCountRow (numCols t)) =
        List.replicate (numRows t) (numCols t) := by
      have hlen : (t.rows.map (notnaCountRow (numCols t))).length = numRows t := by
        simp [numRows]
      have hmem : ∀ x ∈ t.rows.map (notnaCountRow (numCols t)), x = numCols t := by
        rintro x hx
        obtain ⟨r, hr, rfl⟩ := List.mem_map.1 hx
        exact notnaCountRow_full (hrect r hr) (hfull r hr)
      rw [← hlen]
      exact List.eq_replicate_of_mem hmem
    have hempty : (t.rows.map (isnaCountRow (numCols t))).sum = 0 := by
      apply List.sum_eq_zero
      rintro x hx
      obtain ⟨r, hr, rfl⟩ := List.mem_map.1 hx
      exact isnaCountRow_full (hrect r hr) (hfull r hr)
    have hstr : (t.rows.map (strRow (numCols t))).Nodup := by
      refine List.Nodup.map_on ?_ hnodup
      intro r1 h1 r2 h2 heq
      exact strRow_inj (hrect r1 h1) (hrect r2 h2) (hfull r1 h1) (hfull r2 h2) heq
    have hgc : (sampleGo (min 100 (numRows t * numCols t))
        ((List.range (numCols t)).map (colOf t)) 0 0).1 = 0 := by
      apply sampleGo_no_garbled
      intro col hcol s hs
      obtain ⟨j, hj, rfl⟩ := List.mem_map.1 hcol
      obtain ⟨r, hr, hrs⟩ := List.mem_map.1 hs
      have hsr : some s ∈ r := getD_some_mem hrs
      have := List.all_eq_true.1 (hgarb r hr) (some s) hsr
      simpa [cellNotGarbled] using this
    have e1 : singleColumnCheck (numRows t) (numCols t) = [] := if_neg hsingle
    have e2 : rowExplosionCheck (numRows t) (numCols t) = [] := by
      unfold rowExplosionCheck
      rw [if_neg (by omega), if_neg hmany]
    have e3 : columnConsistencyCheck (t.rows.map (notnaCountRow (numCols t))) = [] := by
      rw [hrcc]
      exact columnConsistencyCheck_replicate _ _
    have e4 : emptyCellsCheck (numRows t) ((t.rows.map (isnaCountRow (numCols t))).sum)
        (numRows t * numCols t) = [] := by
      rw [hempty]
      exact emptyCellsCheck_zero _ _
    have e5 : duplicateRowsCheck (numRows t) (t.rows.map (strRow (numCols t))) = [] :=
      duplicateRowsCheck_nodup _ _ hstr
    have e6 : garbledTextCheck (sampleGo (min 100 (numRows t * numCols t))
        ((List.range (numCols t)).map (colOf t)) 0 0) = [] :=
      garbledTextCheck_zero _ hgc
    rw [e1, e2, e3, e4, e5, e6]
    rfl

theorem c5_witness : detect_quality_issues q22 = [] :=
  c5_clean_table_reports_zero_issues q22 (by decide) (by decide) (by decide)
    (by decide) (by decide) (by decide) (by decide) (by decide)

/-- C5 counterexample: a one-column four-row table that satisfies every
cleanliness hypothesis of the claim (no empty cells, no duplicate rows,
consistent counts, at most seventy rows, no garbled cells) still reports an
issue, the single-column trap, so the claim fails for arbitrary column
counts. -/
theorem c5_counterexample :
    detect_quality_issues q4 = [QualityIssue.singleColumn 4] ∧
    (∀ r ∈ q4.rows, ∀ c ∈ r, c.isSome = true) ∧
    q4.rows.Nodup ∧
    numRows q4 ≤ 70 ∧
    (∀ r ∈ q4.rows, (r.all cellNotGarbled) = true) := by
  refine ⟨by decide, by decide, by decide, by decide, by decide⟩

/-- C6 (corrected): the row-explosion heuristic reports an issue for every
table with more than seventy rows and at least one column (a degenerate
zero-column frame is empty for pandas and reports nothing, hence the added
proviso); for a table of fifty-one to seventy rows it reports an issue
exactly when the column count exceeds twelve; and any table of eighty rows
and fifteen columns in the structural-extraction result forces the one-shot
vision fallback. -/
theorem c6_row_explosion_and_fallback (t : QTable) (ts : List QTable) :
    (numRows t > 70 → numCols t ≥ 1 →
      QualityIssue.rowExplosionHigh (numRows t) ∈ detect_quality_issues t) ∧
    (51 ≤ numRows t → numRows t ≤ 70 →
      (QualityIssue.rowExplosionManyCols (numRows t) (numCols t) ∈
          detect_quality_issues t ↔ numCols t > 12)) ∧
    (t ∈ ts → numRows t = 80 → numCols t = 15 → visionFallbackTriggered ts = true) := by
  have partA : numRows t > 70 → numCols t ≥ 1 →
      QualityIssue.rowExplosionHigh (numRows t) ∈ detect_quality_issues t := by
    intro h70 hc1
    unfold detect_quality_issues
    rw [if_neg (by omega)]
    have hm : QualityIssue.rowExplosionHigh (numRows t) ∈
        rowExplosionCheck (numRows t) (numCols t) := by
      unfold rowExplosionCheck
      rw [if_pos h70]
      simp
    simp only [List.mem_append]
    tauto
  refine ⟨partA, ?_, ?_⟩
  · intro h51 h70
    constructor
    · intro hmem
      unfold detect_quality_issues at hmem
      by_cases hz : numRows t = 0 ∨ numCols t = 0
      · rw [if_pos hz] at hmem
        exact absurd hmem (List.not_mem_nil _)
      rw [if_neg hz] at hmem
      simp only [List.mem_append] at hmem
      rcases hmem with ((((h1 | h2) | h3) | h4) | h5) | h6
      · exact absurd (mem_singleColumnCheck h1) (by simp)
      · unfold rowExplosionCheck at h2
        rw [if_neg (by omega)] at h2
        split_ifs at h2 with hcond
        · exact hcond.2
        · simp at h2
      · have := mem_columnConsistencyCheck h3
        simp at this
      · have := mem_emptyCellsCheck h4
        simp at this
      · have := mem_duplicateRowsCheck h5
        simp at this
      · have := mem_garbledTextCheck h6
        simp at this
    · intro h12
      unfold detect_quality_issues
      rw [if_neg (by omega)]
      have hm : QualityIssue.rowExplosionManyCols (numRows t) (numCols t) ∈
          rowExplosionCheck (numRows t) (numCols t) := by
        unfold rowExplosionCheck
        rw [if_neg (by omega), if_pos ⟨by omega, h12⟩]
        simp
      simp only [List.mem_append]
      tauto
  · intro ht hr hc
    have hm := partA (by omega) (by omega)
    have hne : detect_quality_issues t ≠ [] := List.ne_nil_of_mem hm
    unfold visionFallbackTriggered textPdfQualityFlag
    rw [Bool.or_eq_true]
    left
    rw [List.any_eq_true]
    refine ⟨t, ht, ?_⟩
    cases hD : detect_quality_issues t with
    | nil => exact absurd hD hne
    | cons a l => simp

theorem c6_witness :
    QualityIssue.rowExplosionHigh (numRows q71) ∈ detect_quality_issues q71 ∧
    (QualityIssue.rowExplosionManyCols (numRows q60) (numCols q60) ∈
        detect_quality_issues q60 ↔ numCols q60 > 12) ∧
    visionFallbackTriggered [q80] = true :=
  ⟨(c6_row_explosion_and_fallback q71 []).1 (by decide) (by decide),
    (c6_row_explosion_and_fallback q60 []).2.1 (by decide) (by decide),
    (c6_row_explosion_and_fallback q80 [q80]).2.2 (by simp) (by decide) (by decide)⟩

/-- C6 counterexample: a degenerate table of seventy-one rows and zero
columns refutes the unconditional reading of the claim: it has more than
seventy rows yet the engine reports no issue, because a frame with no
columns is empty for pandas and returns before any heuristic runs. -/
theorem c6_counterexample :
    numRows q0c = 71 ∧ detect_quality_issues q0c = [] := by
  refine ⟨by decide, by decide⟩

/-- C7: the detail range of a roll-up row is found by the forward scan
first (its result, when it found a detail row, is the range), the backward
scan runs only otherwise, and when neither scan finds a detail row no
formula is emitted; on the tag rows of the claim the forward case yields
exactly the two detail rows after the roll-up, and the backward case (where
the forward scan finds nothing) yields exactly the two detail rows before
it. -/
theorem c7_rollup_range_detection :
    (∀ (tags : List Cell) (idx s e : Nat),
      fwdScan tags idx = (some s, some e) → rollupRange tags idx = some (s, e)) ∧
    (∀ (tags : List Cell) (idx : Nat) (cols : List Nat),
      fwdScan tags idx = (none, none) → bwdScan tags idx none none = (none, none) →
      add_rollup_formulas tags cols idx = []) ∧
    rollupRange c7Fwd 0 = some (1, 2) ∧
    (fwdScan c7Bwd 2 = (none, none) ∧ rollupRange c7Bwd 2 = some (0, 1)) := by
  refine ⟨?_, ?_, by decide, by decide, by decide⟩
  · intro tags idx s e h
    simp [rollupRange, h]
  · intro tags idx cols h1 h2
    simp [add_rollup_formulas, rollupRange, h1, h2]

theorem c7_witness :
    rollupRange c7Fwd 0 = some (1, 2) ∧ add_rollup_formulas c7None [0] 0 = [] :=
  ⟨c7_rollup_range_detection.1 c7Fwd 0 1 2 (by decide),
    c7_rollup_range_detection.2.1 c7None 0 [0] (by decide) (by decide)⟩

/-- C8: when the final table set is empty the conversion returns the null
result without raising; when it is non-empty the output built from the
table set by the downstream collaborators is returned. -/
theorem c8_empty_table_signal {β : Type} (createOut : List QTable → β)
    (ts : List QTable) :
    (ts = [] → convert_pdf_to_excel_result createOut ts = Except.ok none) ∧
    (ts ≠ [] → convert_pdf_to_excel_result createOut ts =
      Except.ok (some (createOut ts))) := by
  constructor
  · rintro rfl
    rfl
  · intro h
    unfold convert_pdf_to_excel_result
    rw [if_neg (by simpa [List.isEmpty_iff] using h)]

theorem c8_witness :
    convert_pdf_to_excel_result List.length ([] : List QTable) = Except.ok none ∧
    convert_pdf_to_excel_result List.length [q1] = Except.ok (some 1) := by
  refine ⟨(c8_empty_table_signal List.length []).1 rfl, ?_⟩
  have h := (c8_empty_table_signal List.length [q1]).2 (by simp)
  rw [h]
  rfl

/-- C9: the single-cell repair leaves every non-string value exactly
unchanged (the isinstance guard of the fixer returns it as is, the notna
guard of the applying lambda skips null cells), so the pass can only modify
string cells. -/
theorem c9_nonstring_cells_unchanged (v : PyVal) (h : ∀ s : L, v ≠ PyVal.vstr s) :
    pyFixCellParens v = v ∧ cleanMalformedCellPy v = v := by
  cases v with
  | vstr s => exact absurd rfl (h s)
  | vnum n => exact ⟨rfl, rfl⟩
  | vnone => exact ⟨rfl, rfl⟩

theorem c9_witness :
    (pyFixCellParens (PyVal.vnum 7) = PyVal.vnum 7 ∧
      cleanMalformedCellPy (PyVal.vnum 7) = PyVal.vnum 7) ∧
    (pyFixCellParens PyVal.vnone = PyVal.vnone ∧
      cleanMalformedCellPy PyVal.vnone = PyVal.vnone) :=
  ⟨c9_nonstring_cells_unchanged (PyVal.vnum 7) (fun s h => PyVal.noConfusion h),
    c9_nonstring_cells_unchanged PyVal.vnone (fun s h => PyVal.noConfusion h)⟩

/-- C10: a file whose conversion completes without raising but finds no
tables is recorded in neither the success nor the failed list of the batch
run; only files whose conversion produced output appear in the success
list, and only files whose conversion raised appear in the failed list. -/
theorem c10_no_tables_files_in_neither_list {F E β : Type}
    (conv : F → Except E (Option β)) (files : List F) (f : F) :
    (f ∈ files → conv f = Except.ok none →
      f ∉ (batch_convert_directory conv files).1 ∧
      f ∉ (batch_convert_directory conv files).2) ∧
    (f ∈ (batch_convert_directory conv files).1 →
      ∃ b, conv f = Except.ok (some b)) ∧
    (f ∈ (batch_convert_directory conv files).2 →
      ∃ e, conv f = Except.error e) := by
  have hm := batch_mem conv files ([], []) f
  unfold batch_convert_directory
  refine ⟨?_, ?_, ?_⟩
  · intro hf hnone
    constructor
    · intro hmem
      rcases hm.1.1 hmem with h | ⟨h1, b, hb⟩
      · simp at h
      · rw [hnone] at hb
        simp at hb
    · intro hmem
      rcases hm.2.1 hmem with h | ⟨h1, e, he⟩
      · simp at h
      · rw [hnone] at he
        simp at he
  · intro hmem
    rcases hm.1.1 hmem with h | ⟨h1, hb⟩
    · simp at h
    · exact hb
  · intro hmem
    rcases hm.2.1 hmem with h | ⟨h1, he⟩
    · simp at h
    · exact he

theorem c10_witness :
    1 ∉ (batch_convert_directory conv0 [0, 1, 2]).1 ∧
    1 ∉ (batch_convert_directory conv0 [0, 1, 2]).2 :=
  (c10_no_tables_files_in_neither_list conv0 [0, 1, 2] 1).1 (by simp) rfl

end PdfToXls
